import Mathlib

/-!
Verification development for the zappy-rs game server.

Shallow embedding of the parts of the source relevant to the checked
properties: the timed-event scheduler (`src/event.rs`), resource bags and
wire formatting (`src/resources.rs`, `src/formater.rs`), player state and
satiety (`src/player.rs`), the map cells and resource accounting
(`src/map.rs`, `cell.rs`), the sound-direction computation (`src/sound.rs`),
and the tick-processing core of `Server::update`, `Server::reduce_satiety`,
the AI response handler and the disconnect path (`src/server.rs`,
`handler/ai.rs`, `connection.rs`).

Modelling conventions:
* `u64` values are modelled as `Nat` (`saturating_sub` is `Nat` truncated
  subtraction; `saturating_add` is plain addition, as the tick and id
  counters stay far below `2^64` and no claim depends on wrap-around),
  `i64` values as `Int` (`rem_euclid` is `Int.emod`, which agrees with it
  for positive moduli).
* Rust's `BinaryHeap` of `TimedEvent`s is modelled as a `List`; the heap
  order is only observable through `tick`, which pops expired events in
  ascending `(expiration_tick, event_id)` order, so `tick` sorts the
  expired prefix with that key.
* `HashMap<Id, Player>` is modelled as an association `List (Nat × Player)`
  (lookup and in-place update act on the first matching key).
* Channel sends to clients and observers are modelled as an output list.
-/

namespace Zappy

/-! ## Resources (`src/resources.rs`) -/

/-- The seven resource kinds, in the declaration order of `enum Resource`
(`Food` is last, as in the source). -/
inductive Resource where
  | Deraumere
  | Linemate
  | Mendiane
  | Phiras
  | Sibur
  | Thystame
  | Food
deriving DecidableEq, Repr

/-- `Resources`: the dense 7-counter bag `contents: [u64; 7]`. -/
structure Resources where
  deraumere : Nat
  linemate : Nat
  mendiane : Nat
  phiras : Nat
  sibur : Nat
  thystame : Nat
  food : Nat
deriving DecidableEq, Repr

/-- `Index<Resource> for Resources`. -/
def Resources.get (r : Resources) : Resource → Nat
  | .Deraumere => r.deraumere
  | .Linemate => r.linemate
  | .Mendiane => r.mendiane
  | .Phiras => r.phiras
  | .Sibur => r.sibur
  | .Thystame => r.thystame
  | .Food => r.food

/-- `IndexMut<Resource> for Resources` (functional update). -/
def Resources.seti (r : Resources) : Resource → Nat → Resources
  | .Deraumere, n => { r with deraumere := n }
  | .Linemate, n => { r with linemate := n }
  | .Mendiane, n => { r with mendiane := n }
  | .Phiras, n => { r with phiras := n }
  | .Sibur, n => { r with sibur := n }
  | .Thystame, n => { r with thystame := n }
  | .Food, n => { r with food := n }

/-- `Resources::default()` — all counters zero. -/
def Resources.zero : Resources := ⟨0, 0, 0, 0, 0, 0, 0⟩

/-- `Resource::iter()` — the canonical iteration order of the source. -/
def Resource.list : List Resource :=
  [.Deraumere, .Linemate, .Mendiane, .Phiras, .Sibur, .Thystame, .Food]

/-- `Resources::has_at_least`: pointwise `available >= needed`. -/
def Resources.has_at_least (avail required : Resources) : Bool :=
  Resource.list.all fun k => required.get k ≤ avail.get k

/-! ## The event scheduler (`src/event.rs`) -/

/-- `const MAX_SIMULTANEOUS_EVENTS: u64 = 10`. -/
def MAX_SIMULTANEOUS_EVENTS : Nat := 10

/-- `struct TimedEvent<T>`. -/
structure TimedEvent (T : Type) where
  data : T
  event_id : Nat
  player_id : Nat
  expiration_tick : Nat
deriving DecidableEq, Repr

/-- `struct EventScheduler<T>`; the `BinaryHeap` is carried as a list. -/
structure EventScheduler (T : Type) where
  events : List (TimedEvent T)
  current_tick : Nat
  next_event_id : Nat
deriving DecidableEq, Repr

namespace EventScheduler

variable {T : Type}

/-- `EventScheduler::new()`. -/
def new : EventScheduler T := ⟨[], 0, 0⟩

/-- The loop body of `get_nb_events_by_player_id`: count a matching event
and raise `last_action_tick` to its expiration when larger. -/
def nbStep (pid : Nat) (acc : Nat × Nat) (ev : TimedEvent T) : Nat × Nat :=
  if ev.player_id = pid then
    (acc.1 + 1, if acc.2 < ev.expiration_tick then ev.expiration_tick else acc.2)
  else acc

/-- `EventScheduler::get_nb_events_by_player_id`: one pass over the pending
events, counting the player's events and taking the maximum expiration
tick, starting from `current_tick`.  Returns `(nb_events, last_action_tick)`. -/
def get_nb_events_by_player_id (s : EventScheduler T) (pid : Nat) : Nat × Nat :=
  s.events.foldl (nbStep pid) (0, s.current_tick)

/-- `EventScheduler::force_schedule`: always inserts, with
`expiration_tick = current_tick + event_ticks`; returns the new event's id. -/
def force_schedule (s : EventScheduler T) (data : T) (event_ticks pid : Nat) :
    EventScheduler T × Nat :=
  let event_id := s.next_event_id
  let exp := s.current_tick + event_ticks
  ({ events := ⟨data, event_id, pid, exp⟩ :: s.events
     current_tick := s.current_tick
     next_event_id := s.next_event_id + 1 }, event_id)

/-- `EventScheduler::schedule`: consumes the next event id, then rejects with
the sentinel `0` when the player already has more than
`MAX_SIMULTANEOUS_EVENTS` pending events; otherwise inserts with
`expiration_tick = last_tick + event_ticks`. -/
def schedule (s : EventScheduler T) (data : T) (event_ticks pid : Nat) :
    EventScheduler T × Nat :=
  let event_id := s.next_event_id
  let nb := s.get_nb_events_by_player_id pid
  if MAX_SIMULTANEOUS_EVENTS < nb.1 then
    ({ s with next_event_id := s.next_event_id + 1 }, 0)
  else
    let exp := nb.2 + event_ticks
    ({ events := ⟨data, event_id, pid, exp⟩ :: s.events
       current_tick := s.current_tick
       next_event_id := s.next_event_id + 1 }, event_id)

/-- The expiration shift applied by `shift_client_events` to one event:
`saturating_sub`/`saturating_add` of `|shift_ticks|`, clamped below by
`current_tick` via `.max(self.current_tick)`. -/
def shiftExp (exp : Nat) (delta : Int) (current : Nat) : Nat :=
  max (if delta < 0 then exp - delta.natAbs else exp + delta.natAbs) current

/-- `EventScheduler::shift_client_events`: every pending event of `pid` gets
its expiration shifted and clamped; all events are pushed back into the heap
(multiset unchanged for other players). -/
def shift_client_events (s : EventScheduler T) (pid : Nat) (delta : Int) :
    EventScheduler T :=
  { s with
    events := s.events.map fun e =>
      if e.player_id = pid then
        { e with expiration_tick := shiftExp e.expiration_tick delta s.current_tick }
      else e }

/-- The heap pop order of `BinaryHeap<TimedEvent<T>>`: the reversed `Ord`
on `(expiration_tick, event_id)` makes it a min-heap on that pair. -/
def popLE (a b : TimedEvent T) : Bool :=
  a.expiration_tick < b.expiration_tick ||
    (a.expiration_tick == b.expiration_tick && a.event_id ≤ b.event_id)

/-- Insertion into a list sorted by `popLE` (used to present the expired
events in heap pop order). -/
def insertPop (e : TimedEvent T) : List (TimedEvent T) → List (TimedEvent T)
  | [] => [e]
  | x :: xs => if popLE e x then e :: x :: xs else x :: insertPop e xs

/-- Sort by `popLE` (insertion sort; the order is total, so this agrees with
the heap's pop sequence). -/
def sortPop : List (TimedEvent T) → List (TimedEvent T)
  | [] => []
  | x :: xs => insertPop x (sortPop xs)

/-- `EventScheduler::tick`: advance `current_tick` by one, pop every event
with `expiration_tick <= current_tick` (in heap order) and return them. -/
def tick (s : EventScheduler T) : EventScheduler T × List (TimedEvent T) :=
  let ct := s.current_tick + 1
  ({ events := s.events.filter fun e => ¬ e.expiration_tick ≤ ct
     current_tick := ct
     next_event_id := s.next_event_id },
   sortPop (s.events.filter fun e => e.expiration_tick ≤ ct))

/-- `EventScheduler::tick_multiple`. -/
def tick_multiple (s : EventScheduler T) (ticks : Nat) :
    EventScheduler T × List (TimedEvent T) :=
  let ct := s.current_tick + ticks
  ({ events := s.events.filter fun e => ¬ e.expiration_tick ≤ ct
     current_tick := ct
     next_event_id := s.next_event_id },
   sortPop (s.events.filter fun e => e.expiration_tick ≤ ct))

/-- `EventScheduler::cancel`: drop the event with the given id (noop when
absent); returns whether it was present. -/
def cancel (s : EventScheduler T) (eid : Nat) : EventScheduler T × Bool :=
  ({ s with events := s.events.filter fun e => ¬ e.event_id = eid },
   s.events.any fun e => e.event_id == eid)

end EventScheduler

/-! ## Player state (`src/player.rs`, `src/constant.rs`) -/

/-- `enum Direction`. -/
inductive Direction where
  | North
  | East
  | South
  | West
deriving DecidableEq, Repr

/-- `enum ElevationLevel` (`Level1` .. `Level8`). -/
inductive ElevationLevel where
  | Level1
  | Level2
  | Level3
  | Level4
  | Level5
  | Level6
  | Level7
  | Level8
deriving DecidableEq, Repr

/-- `ElevationLevel::upgrade` (capped at `Level8`). -/
def ElevationLevel.upgrade : ElevationLevel → ElevationLevel
  | .Level1 => .Level2
  | .Level2 => .Level3
  | .Level3 => .Level4
  | .Level4 => .Level5
  | .Level5 => .Level6
  | .Level6 => .Level7
  | .Level7 => .Level8
  | .Level8 => .Level8

/-- `enum PlayerState`. -/
inductive PlayerState where
  | Idle
  | Incantating
deriving DecidableEq, Repr

/-- `const REFILL_PER_FOOD: u64 = 126` and
`const SATIETY_LOSS_PER_TICK: u64 = 1`. -/
def REFILL_PER_FOOD : Nat := 126

def SATIETY_LOSS_PER_TICK : Nat := 1

/-- `struct Player` (the outbound channel handle `client_tx` is not part of
the modelled state; sends are modelled as outputs). -/
structure Player where
  team : Nat
  id : Nat
  inventory : Resources
  pos : Nat × Nat
  direction : Direction
  elevation : ElevationLevel
  satiety : Nat
  state : PlayerState
deriving DecidableEq, Repr

/-- `Player::reduce_satiety`: saturating decrement; when the new value is
zero, consume one `Food` (if any) and refill to `REFILL_PER_FOOD`.
Returns the updated player together with the value the method returns. -/
def Player.reduce_satiety (p : Player) (reduction : Nat) : Player × Nat :=
  let new_satiety := p.satiety - reduction
  if new_satiety = 0 then
    if 0 < p.inventory.get .Food then
      let p := { p with
        inventory := p.inventory.seti .Food (p.inventory.get .Food - 1)
        satiety := new_satiety + REFILL_PER_FOOD }
      (p, p.satiety)
    else
      let p := { p with satiety := new_satiety }
      (p, p.satiety)
  else
    let p := { p with satiety := new_satiety }
    (p, p.satiety)

/-- `Player::add_resource`. -/
def Player.add_resource (p : Player) (r : Resource) (amount : Nat) : Player :=
  { p with inventory := p.inventory.seti r (p.inventory.get r + amount) }

/-- `Player::del_resource`: try-subtract from the inventory. -/
def Player.del_resource (p : Player) (r : Resource) (amount : Nat) :
    Player × Option Resource :=
  if amount ≤ p.inventory.get r then
    ({ p with inventory := p.inventory.seti r (p.inventory.get r - amount) }, some r)
  else
    (p, none)

/-- `Player::is_incantating`. -/
def Player.is_incantating (p : Player) : Bool := p.state == .Incantating

/-! ## Sound direction (`src/sound.rs`) -/

/-- `struct Emitter` — only the emitter's position is captured; the
`From<&Player>` conversion drops the heading. -/
structure Emitter where
  pos : Nat × Nat
deriving DecidableEq, Repr

/-- `struct Receiver` — position and heading. -/
structure Receiver where
  pos : Nat × Nat
  direction : Direction
deriving DecidableEq, Repr

/-- `impl From<&Player> for Emitter`. -/
def Emitter.fromPlayer (p : Player) : Emitter := ⟨p.pos⟩

/-- `impl From<&Player> for Receiver`. -/
def Receiver.fromPlayer (p : Player) : Receiver := ⟨p.pos, p.direction⟩

/-- `get_shortest_path_torique`: per axis, reduce the difference with
`rem_euclid` and fold residues above half the side down by one side. -/
def get_shortest_path_torique (start stop : Nat × Nat) (size : Nat × Nat) :
    Int × Int :=
  let dx := ((stop.1 : Int) - (start.1 : Int)).emod (size.1 : Int)
  let dy := ((stop.2 : Int) - (start.2 : Int)).emod (size.2 : Int)
  let dx := if (size.1 : Int) / 2 < dx then dx - (size.1 : Int) else dx
  let dy := if (size.2 : Int) / 2 < dy then dy - (size.2 : Int) else dy
  (dx, dy)

/-- Exact integer model of the source's
`(dy as f64).atan2(dx as f64)` normalised to `[0, 2*PI)` followed by
`(angle / (PI/4)).round_ties_even()`: the index `k ∈ [0, 8]` of the nearest
multiple of 45° to the angle of the vector `(dx, dy)`.

For integer vectors the angle is never at an exact rounding boundary
(odd multiples of 22.5°, whose tangents `√2 ± 1` are irrational), so the
nearest multiple is unique and `round_ties_even` never ties; comparison
with the boundary slope `tan 22.5° = √2 - 1` is decided exactly by
`a < (√2-1)·b ↔ (a+b)² < 2·b²` on naturals.  (The `f64` computation agrees
at every input whose angle is not within the floating-point error of a
boundary; the concrete inputs used below are far from every boundary.) -/
def roundedOctant (dx dy : Int) : Int :=
  let ax := dx.natAbs
  let ay := dy.natAbs
  let c : Int :=
    if (ay + ax) ^ 2 < 2 * ax ^ 2 then 0
    else if (ax + ay) ^ 2 < 2 * ay ^ 2 then 2
    else 1
  if 0 ≤ dx then
    if 0 ≤ dy then c else 8 - c
  else
    if 0 ≤ dy then 4 - c else 4 + c

/-- The heading offset added to the quantised angle in
`get_sound_direction`. -/
def receiverOffset : Direction → Int
  | .East => 0
  | .North => 6
  | .South => 2
  | .West => 4

/-- `get_sound_direction`: `0` when the emitter and receiver coincide,
otherwise the quantised angle of the shortest toroidal path from receiver
to emitter, rotated by the receiver's heading, `mod 8`, plus one. -/
def get_sound_direction (e : Emitter) (r : Receiver) (size : Nat × Nat) : Nat :=
  if e.pos = r.pos then 0
  else
    let d := get_shortest_path_torique r.pos e.pos size
    let dir := roundedOctant d.1 d.2
    ((dir + receiverOffset r.direction).emod 8 + 1).toNat

/-! ## Movement (`src/player.rs`) -/

/-- `Player::move_player`: per-axis `rem_euclid` wrap on the torus. -/
def Player.move_player (p : Player) (dx dy : Int) (size : Nat × Nat) : Player :=
  { p with
    pos := ((((p.pos.1 : Int) + dx).emod (size.1 : Int)).toNat,
            (((p.pos.2 : Int) + dy).emod (size.2 : Int)).toNat) }

/-- `Player::move_forward`. -/
def Player.move_forward (p : Player) (size : Nat × Nat) : Player :=
  match p.direction with
  | .North => p.move_player 0 1 size
  | .East => p.move_player 1 0 size
  | .South => p.move_player 0 (-1) size
  | .West => p.move_player (-1) 0 size

/-! ## Observer and actor responses (`src/protocol.rs`) -/

/-- `AIResponse`, restricted to the variants the verified paths produce. -/
inductive AIResp where
  | ok
  | ko
  | dead
  | incantating
  | levelUp (lvl : ElevationLevel)
  | inventory (r : Resources)
deriving DecidableEq, Repr

/-- `GUIResponse` variants produced on the verified paths. -/
inductive GuiResp where
  | bct (pos : Nat × Nat) (r : Resources)
  | pgt (pid : Nat) (r : Resource)
  | pdr (pid : Nat) (r : Resource)
  | pin (pid : Nat) (pos : Nat × Nat) (r : Resources)
  | pic (pos : Nat × Nat) (lvl : ElevationLevel) (ids : List Nat)
  | pie (pos : Nat × Nat) (success : Bool)
  | plv (pid : Nat) (lvl : ElevationLevel)
  | pdi (pid : Nat)
  | ppo (pid : Nat) (pos : Nat × Nat) (d : Direction)
deriving DecidableEq, Repr

/-- One outbound channel send, to an actor or to an observer. -/
inductive Out where
  | toPlayer (pid : Nat) (resp : AIResp)
  | toGui (gid : Nat) (resp : GuiResp)
deriving DecidableEq, Repr

/-! ## Map and cells (`src/map.rs`, `cell.rs`) -/

/-- `struct Map`: the `W × H` grid (`map[y][x]`), the world-totals mirror
`resources`, and the map size.  (The egg registry is not involved in the
verified claims and is omitted.) -/
structure GameMap where
  size : Nat × Nat
  cells : List (List Resources)
  totals : Resources
deriving DecidableEq, Repr

/-- `self[pos]` — direct cell read at `map[pos.y][pos.x]`. -/
def GameMap.cellAt (m : GameMap) (pos : Nat × Nat) : Resources :=
  (m.cells.getD pos.2 []).getD pos.1 Resources.zero

/-- In-place cell write at `map[pos.y][pos.x]`. -/
def GameMap.setCellAt (m : GameMap) (pos : Nat × Nat) (c : Resources) : GameMap :=
  { m with cells := m.cells.set pos.2 ((m.cells.getD pos.2 []).set pos.1 c) }

/-- `Map::add_resource`: add to the totals mirror and the cell, then send a
`bct` cell-update to every observer. -/
def GameMap.add_resource (m : GameMap) (r : Resource) (amount : Nat)
    (pos : Nat × Nat) (guis : List Nat) : GameMap × List Out :=
  let m := { m with totals := m.totals.seti r (m.totals.get r + amount) }
  let cell := m.cellAt pos
  let m := m.setCellAt pos (cell.seti r (cell.get r + amount))
  (m, guis.map fun g => .toGui g (.bct pos (m.cellAt pos)))

/-- `Map::del_resource`: `Cell::del_resource` first (try-subtract; `None`
leaves everything untouched), then decrement the totals mirror and send a
`bct` cell-update to every observer. -/
def GameMap.del_resource (m : GameMap) (r : Resource) (amount : Nat)
    (pos : Nat × Nat) (guis : List Nat) : GameMap × List Out × Option Resource :=
  let cell := m.cellAt pos
  if amount ≤ cell.get r then
    let m := m.setCellAt pos (cell.seti r (cell.get r - amount))
    let m := { m with totals := m.totals.seti r (m.totals.get r - amount) }
    (m, guis.map fun g => .toGui g (.bct pos (m.cellAt pos)), some r)
  else
    (m, [], none)

/-! ## Incantation requirements (`src/resources.rs`) -/

/-- `struct LevelRequirement`. -/
structure LevelRequirement where
  players_needed : Nat
  resources : Resources
deriving DecidableEq, Repr

/-- The `LEVEL_REQUIREMENTS` table.  The source `HashMap` holds entries for
levels 1–7 only; indexing it at `Level8` would panic, so the model returns
`none` there. -/
def LEVEL_REQUIREMENTS : ElevationLevel → Option LevelRequirement
  | .Level1 => some ⟨1, { Resources.zero with linemate := 1 }⟩
  | .Level2 => some ⟨2, { Resources.zero with linemate := 1, deraumere := 1, sibur := 1 }⟩
  | .Level3 => some ⟨2, { Resources.zero with linemate := 2, sibur := 1, phiras := 2 }⟩
  | .Level4 => some ⟨4, { Resources.zero with
      linemate := 1, deraumere := 1, sibur := 2, phiras := 1 }⟩
  | .Level5 => some ⟨4, { Resources.zero with
      linemate := 1, deraumere := 2, sibur := 1, mendiane := 3 }⟩
  | .Level6 => some ⟨6, { Resources.zero with
      linemate := 1, deraumere := 2, sibur := 3, phiras := 1 }⟩
  | .Level7 => some ⟨6, { Resources.zero with
      linemate := 2, deraumere := 2, sibur := 2, mendiane := 2, phiras := 2,
      thystame := 1 }⟩
  | .Level8 => none

/-! ## Events carried by the scheduler (`src/event.rs`) -/

/-- `enum Event`, restricted to the variants the verified `Server::update`
paths exercise (each included arm is translated faithfully; the omitted
variants — `Broadcast`, `Right`, `Left`, `Look`, `ConnectNbr`, `Fork`,
`Eject` — use `continue`-style control flow like the simple arms kept
here and play no role in the checked claims). -/
inductive Event where
  | Forward
  | Take (r : Resource)
  | SetRes (r : Resource)
  | Inventory
  | Incantation
  | Ko
  | Phantom
  | IncantationEnd (ids : List Nat) (req : LevelRequirement) (pos : Nat × Nat)
deriving DecidableEq, Repr

/-! ## The server state and tick processing (`src/server.rs`) -/

/-- The world owned by the main loop: map, live players (`HashMap<Id,
Player>` as an association list with unique keys), connected observer ids,
and the scheduler. -/
structure ServerState where
  map : GameMap
  clients : List (Nat × Player)
  guis : List Nat
  scheduler : EventScheduler Event
deriving DecidableEq, Repr

/-- `clients.get(&id)` — first matching key. -/
def getClient : List (Nat × Player) → Nat → Option Player
  | [], _ => none
  | (j, p) :: rest, i => if j = i then some p else getClient rest i

/-- `clients.get_mut(&id)` followed by a mutation — update the first
matching entry in place. -/
def updateClient : List (Nat × Player) → Nat → (Player → Player) →
    List (Nat × Player)
  | [], _, _ => []
  | (j, p) :: rest, i, f =>
    if j = i then (j, f p) :: rest else (j, p) :: updateClient rest i f

/-- The `players_on_tile` collection of the `Event::Incantation` arm:
ids of the clients standing on the tile, not incantating, at the same
elevation. -/
def playersOnTile (st : ServerState) (pos : Nat × Nat) (lvl : ElevationLevel) :
    List Nat :=
  (st.clients.filter fun c =>
    c.2.pos = pos ∧ ¬ c.2.is_incantating ∧ c.2.elevation = lvl).map (·.1)

/-- One iteration of the participant loop of the `Event::Incantation` arm:
mark the participant `Incantating`, send it "elevation underway", and — for
every participant except the initiator — shift its pending events by +300
and force-schedule a `Phantom` placeholder at +300. -/
def incantStep (emitter_id : Nat) (acc : ServerState × List Out) (i : Nat) :
    ServerState × List Out :=
  let st := { acc.1 with
    clients := updateClient acc.1.clients i fun q => { q with state := .Incantating } }
  let outs := acc.2 ++ [Out.toPlayer i .incantating]
  if i ≠ emitter_id then
    let sch := st.scheduler.shift_client_events i 300
    let sch := (sch.force_schedule .Phantom 300 i).1
    ({ st with scheduler := sch }, outs)
  else (st, outs)

/-- One iteration of the participant re-check loop of the
`Event::IncantationEnd` arm: a participant still present, incantating and
on the tile is reset to `Idle` and collected. -/
def incEndCollect (ipos : Nat × Nat) (acc : ServerState × List Nat) (i : Nat) :
    ServerState × List Nat :=
  match getClient acc.1.clients i with
  | none => acc
  | some q =>
    if q.is_incantating ∧ q.pos = ipos then
      ({ acc.1 with
         clients := updateClient acc.1.clients i fun q => { q with state := .Idle } },
       acc.2 ++ [i])
    else acc

/-- One iteration of the resource-consumption loop of a successful
`Event::IncantationEnd`. -/
def incEndConsume (ipos : Nat × Nat) (req : LevelRequirement)
    (acc : ServerState × List Out) (rt : Resource) : ServerState × List Out :=
  let amount := req.resources.get rt
  if 0 < amount then
    let d := acc.1.map.del_resource rt amount ipos acc.1.guis
    ({ acc.1 with map := d.1 }, acc.2 ++ d.2.1)
  else acc

/-- One iteration of the elevation loop of a successful
`Event::IncantationEnd`. -/
def incEndElevate (acc : ServerState × List Out) (i : Nat) : ServerState × List Out :=
  match getClient acc.1.clients i with
  | none => acc
  | some q =>
    let q := { q with elevation := q.elevation.upgrade }
    ({ acc.1 with clients := updateClient acc.1.clients i fun _ => q },
     acc.2 ++ Out.toPlayer i (.levelUp q.elevation) ::
       acc.1.guis.map fun g => .toGui g (.plv i q.elevation))

/-- One arm of the `for timed_event in expired_events` match in
`Server::update`.  Returns the new state, the outputs sent, and whether the
arm executed `return` — the `Event::Incantation` and
`Event::IncantationEnd` failure paths `return` from the whole `update`
function instead of `continue`-ing to the next expired event. -/
def Server.applyOne (st : ServerState) (te : TimedEvent Event) :
    ServerState × List Out × Bool :=
  match te.data with
  | .Forward =>
    match getClient st.clients te.player_id with
    | none => (st, [], false)
    | some p =>
      let p := p.move_forward st.map.size
      ({ st with clients := updateClient st.clients te.player_id fun _ => p },
       Out.toPlayer te.player_id .ok ::
         st.guis.map (fun g => .toGui g (.ppo p.id p.pos p.direction)),
       false)
  | .Take r =>
    match getClient st.clients te.player_id with
    | none => (st, [], false)
    | some p =>
      let d := st.map.del_resource r 1 p.pos st.guis
      match d.2.2 with
      | none => (st, [Out.toPlayer te.player_id .ko], false)
      | some _ =>
        let guiOuts := st.guis.flatMap fun g =>
          [Out.toGui g (.pgt p.id r),
           Out.toGui g (.pin p.id p.pos p.inventory),
           Out.toGui g (.bct p.pos (d.1.cellAt p.pos))]
        let p := p.add_resource r 1
        ({ st with map := d.1
                   clients := updateClient st.clients te.player_id fun _ => p },
         d.2.1 ++ guiOuts ++ [Out.toPlayer te.player_id .ok], false)
  | .SetRes r =>
    match getClient st.clients te.player_id with
    | none => (st, [], false)
    | some p =>
      let del := p.del_resource r 1
      match del.2 with
      | none => (st, [Out.toPlayer te.player_id .ko], false)
      | some r =>
        let p := del.1
        let st := { st with clients := updateClient st.clients te.player_id fun _ => p }
        let a := st.map.add_resource r 1 p.pos st.guis
        let guiOuts := st.guis.flatMap fun g =>
          [Out.toGui g (.pdr p.id r),
           Out.toGui g (.pin p.id p.pos p.inventory),
           Out.toGui g (.bct p.pos (a.1.cellAt p.pos))]
        ({ st with map := a.1 },
         a.2 ++ guiOuts ++ [Out.toPlayer te.player_id .ok], false)
  | .Inventory =>
    match getClient st.clients te.player_id with
    | none => (st, [], false)
    | some p => (st, [Out.toPlayer te.player_id (.inventory p.inventory)], false)
  | .Incantation =>
    match getClient st.clients te.player_id with
    | none => (st, [], false)
    | some emitter =>
      let emitter_pos := emitter.pos
      let emitter_level := emitter.elevation
      let emitter_id := emitter.id
      let players_on_tile := playersOnTile st emitter_pos emitter_level
      match LEVEL_REQUIREMENTS emitter_level with
      | none => (st, [], false)
      | some req =>
        let resources_on_tile := st.map.cellAt emitter_pos
        if players_on_tile.length < req.players_needed ∨
            ¬ resources_on_tile.has_at_least req.resources then
          (st, [Out.toPlayer te.player_id .ko], true)
        else
          let r1 := players_on_tile.foldl (incantStep emitter_id) (st, [])
          let picOuts := r1.1.guis.map fun g =>
            .toGui g (.pic emitter_pos emitter_level players_on_tile)
          let sch := (r1.1.scheduler.schedule
            (.IncantationEnd players_on_tile req emitter_pos) 300 emitter_id).1
          ({ r1.1 with scheduler := sch }, r1.2 ++ picOuts, false)
  | .IncantationEnd ids req ipos =>
    let r1 := ids.foldl (incEndCollect ipos) (st, [])
    let st := r1.1
    let still := r1.2
    let resources_on_tile := st.map.cellAt ipos
    if still.length < req.players_needed ∨
        ¬ resources_on_tile.has_at_least req.resources then
      (st,
       (st.guis.map fun g => Out.toGui g (.pie ipos false)) ++
         ids.filterMap (fun i =>
           if (getClient st.clients i).isSome then some (Out.toPlayer i .ko)
           else none),
       true)
    else
      let r2 := Resource.list.foldl (incEndConsume ipos req) (st, [])
      let r3 := still.foldl incEndElevate r2
      (r3.1,
       r3.2 ++ r3.1.guis.map fun g => Out.toGui g (.pie ipos true),
       false)
  | .Ko =>
    match getClient st.clients te.player_id with
    | none => (st, [], false)
    | some _ => (st, [Out.toPlayer te.player_id .ko], false)
  | .Phantom => (st, [], false)

/-- The `for timed_event in expired_events` loop of `Server::update`: apply
events in order; a `return`-ing arm abandons the remaining expired events
(and, at the caller, the satiety pass). -/
def Server.processEvents (st : ServerState) :
    List (TimedEvent Event) → ServerState × List Out × Bool
  | [] => (st, [], false)
  | te :: rest =>
    let r := Server.applyOne st te
    if r.2.2 then (r.1, r.2.1, true)
    else
      let r2 := Server.processEvents r.1 rest
      (r2.1, r.2.1 ++ r2.2.1, r2.2.2)

/-- `Server::reduce_satiety`: every live player loses
`SATIETY_LOSS_PER_TICK`; a player whose resulting satiety is `0` is sent
the `Dead` response.  (The `≥ 1 s` observer `pin` heartbeat depends on the
wall clock and is omitted.)  Players are *not* removed here. -/
def satietyStep (acc : List (Nat × Player) × List Out) (c : Nat × Player) :
    List (Nat × Player) × List Out :=
  let red := c.2.reduce_satiety SATIETY_LOSS_PER_TICK
  (acc.1 ++ [(c.1, red.1)],
   if red.2 = 0 then acc.2 ++ [Out.toPlayer c.1 .dead] else acc.2)

def Server.reduce_satiety (st : ServerState) : ServerState × List Out :=
  let r := st.clients.foldl satietyStep ([], [])
  ({ st with clients := r.1 }, r.2)

/-- `Server::update`, from `scheduler.tick()` on: pop the expired events,
apply them in order, then (unless an arm `return`-ed) run the satiety pass.
`spawn_resources` (the randomized respawn that precedes the tick) touches
neither the scheduler nor satiety and is omitted. -/
def Server.update (st : ServerState) : ServerState × List Out :=
  let t := st.scheduler.tick
  let st := { st with scheduler := t.1 }
  let r := Server.processEvents st t.2
  if r.2.2 then (r.1, r.2.1)
  else
    let r2 := Server.reduce_satiety r.1
    (r2.1, r.2.1 ++ r2.2)

/-! ## Wire formatting (`src/formater.rs`) -/

/-- `LevelFormat` — elevation rendered as its number. -/
def levelFormat : ElevationLevel → Nat
  | .Level1 => 1
  | .Level2 => 2
  | .Level3 => 3
  | .Level4 => 4
  | .Level5 => 5
  | .Level6 => 6
  | .Level7 => 7
  | .Level8 => 8

/-- `InventoryFormat` — the `write!` literal of the source, with the seven
counters spliced in. -/
def inventoryFormat (r : Resources) : String :=
  "[deraumere " ++ toString r.deraumere ++
  ", linemate " ++ toString r.linemate ++
  ", mendiane " ++ toString r.mendiane ++
  ", phiras " ++ toString r.phiras ++
  ", sibur " ++ toString r.sibur ++
  ", thystame " ++ toString r.thystame ++
  ", food " ++ toString r.food ++ "]"

/-! ## AI response handling and the death path
(`handler/ai.rs`, `connection.rs`, `src/server.rs`) -/

/-- `CommandRes`/`State` from `handler/command.rs`, restricted to what the
AI handler produces: a plain reply line, or the `DEAD` transition carrying
the final line to write before closing. -/
inductive CommandRes where
  | response (line : String)
  | changeStateDead (line : String)
deriving DecidableEq, Repr

/-- `AiHandler::handle_command` (server handler), on the modelled response
variants. -/
def AiHandler.handle_command : AIResp → CommandRes
  | .ok => .response "ok\n"
  | .ko => .response "ko\n"
  | .dead => .changeStateDead "dead\n"
  | .incantating => .response "Elevation underway\n"
  | .levelUp lvl => .response ("Current level: " ++ toString (levelFormat lvl) ++ "\n")
  | .inventory r => .response (inventoryFormat r ++ "\n")

/-- The broadcast reception line
(`AIResponse::Broadcast` arm of `AiHandler::handle_command`):
`format!("message {}, {}\n", dir, str)`. -/
def broadcastLine (dir : Nat) (msg : String) : String :=
  "message " ++ toString dir ++ ", " ++ msg ++ "\n"

/-- Connection-side delivery of one AI response
(`ConnectionEvent::ServerResponse` arm of `Connection::handle`): the line
written to the socket, and whether the connection closes (`State::DEAD`)
and therefore reports `SharedAction::Disconnected` back to the server. -/
def Connection.deliverAI (resp : AIResp) : String × Bool :=
  match AiHandler.handle_command resp with
  | .response line => (line, false)
  | .changeStateDead line => (line, true)

/-- `Server::handle_ai_events` on `SharedAction::Disconnected`: notify every
observer with `pdi` and remove the player from the live map. -/
def Server.handle_ai_disconnected (st : ServerState) (i : Nat) :
    ServerState × List Out :=
  ({ st with clients := st.clients.filter fun c => ¬ c.1 = i },
   st.guis.map fun g => .toGui g (.pdi i))

/-- One disconnect handling in the death pipeline: apply
`Server::handle_ai_events(Disconnected)` for one closed connection and
accumulate its observer notifications. -/
def disconnectStep (acc : ServerState × List Out) (i : Nat) : ServerState × List Out :=
  let d := Server.handle_ai_disconnected acc.1 i
  (d.1, acc.2 ++ d.2)

/-- Extract the target of a `Dead` response. -/
def deadIdOf : Out → Option Nat
  | .toPlayer i .dead => some i
  | _ => none

/-- The satiety/death pipeline of one tick: the server-side satiety pass,
then, for every `Dead` response it emitted, the connection's delivery of
that response (which writes the line and closes when the handler returns
`State::DEAD`) and the server's handling of the resulting disconnect.
Each stage is the embedding of its source function; the pipeline composes
them in the order the runtime executes them.  Returns the final state, all
outputs (the satiety pass's sends followed by the `pdi` notifications),
and the `(player, line, closed)` connection deliveries. -/
def Server.satietyAndDeaths (st : ServerState) :
    ServerState × List Out × List (Nat × String × Bool) :=
  let r := Server.reduce_satiety st
  let deadIds := r.2.filterMap deadIdOf
  let delivered := deadIds.map fun i =>
    (i, (Connection.deliverAI .dead).1, (Connection.deliverAI .dead).2)
  let r2 := deadIds.foldl disconnectStep (r.1, [])
  (r2.1, r.2 ++ r2.2, delivered)

/-! ## Scheduler operation traces

The scheduler's public operations as a syntax of operations, so that
"reachable scheduler state" can be quantified over: a state is reachable
when it is `runOps ops` for some operation list applied to
`EventScheduler::new()`. -/

/-- One public scheduler operation. -/
inductive SchedOp (T : Type) where
  | schedule (data : T) (ticks pid : Nat)
  | force (data : T) (ticks pid : Nat)
  | tickOne
  | tickMany (n : Nat)
  | shift (pid : Nat) (delta : Int)
  | cancel (eid : Nat)

/-- Whether the operation is `force_schedule`. -/
def SchedOp.isForce {T : Type} : SchedOp T → Bool
  | .force _ _ _ => true
  | _ => false

/-- Apply one operation (results other than the state are discarded). -/
def SchedOp.apply {T : Type} (s : EventScheduler T) : SchedOp T → EventScheduler T
  | .schedule d t p => (s.schedule d t p).1
  | .force d t p => (s.force_schedule d t p).1
  | .tickOne => s.tick.1
  | .tickMany n => (s.tick_multiple n).1
  | .shift p delta => s.shift_client_events p delta
  | .cancel e => (s.cancel e).1

/-- Run a list of operations from the fresh scheduler. -/
def runOps {T : Type} (ops : List (SchedOp T)) : EventScheduler T :=
  ops.foldl SchedOp.apply EventScheduler.new

/-- Ghost-instrumented step: alongside the scheduler, record the event id
of every *accepted* `schedule` call (newest first).  The log is purely
observational — the scheduler component evolves exactly as under
`SchedOp.apply`. -/
def SchedOp.applyG {T : Type} (sl : EventScheduler T × List Nat) (op : SchedOp T) :
    EventScheduler T × List Nat :=
  match op with
  | .schedule d t p =>
    let r := sl.1.schedule d t p
    if MAX_SIMULTANEOUS_EVENTS < (sl.1.get_nb_events_by_player_id p).1 then
      (r.1, sl.2)
    else
      (r.1, r.2 :: sl.2)
  | op => (SchedOp.apply sl.1 op, sl.2)

/-- Run a list of operations from the fresh scheduler, with the ghost log
of accepted `schedule` event ids. -/
def runOpsG {T : Type} (ops : List (SchedOp T)) : EventScheduler T × List Nat :=
  ops.foldl SchedOp.applyG (EventScheduler.new, [])

/-- The pending events of one client. -/
def EventScheduler.pendingFor {T : Type} (s : EventScheduler T) (pid : Nat) :
    List (TimedEvent T) :=
  s.events.filter fun e => e.player_id = pid

/-- Among the pending events, those created by accepted `schedule` calls
(ids in the ghost log) of the same client appear in expiration order when
read in event-id order. -/
def pendingOrdered {T : Type} (evs : List (TimedEvent T)) (log : List Nat) : Prop :=
  ∀ e1 ∈ evs, ∀ e2 ∈ evs, e1.player_id = e2.player_id →
    e1.event_id ∈ log → e2.event_id ∈ log →
    e1.event_id < e2.event_id → e1.expiration_tick ≤ e2.expiration_tick

/-- Recognise the scheduler-internal `IncantationEnd` variant. -/
def Event.isIncantationEnd : Event → Bool
  | .IncantationEnd _ _ _ => true
  | _ => false

/-- The pending `IncantationEnd` events of one client. -/
def incEndsFor (s : EventScheduler Event) (pid : Nat) : List (TimedEvent Event) :=
  s.events.filter fun e => e.data.isIncantationEnd ∧ e.player_id = pid

/-- Total units of one resource over all cells of the grid. -/
def cellSumRes (m : GameMap) (r : Resource) : Nat :=
  (m.cells.map fun row => (row.map fun c => c.get r).sum).sum

/-- Total units of one resource over all live players' inventories. -/
def invSumRes (cs : List (Nat × Player)) (r : Resource) : Nat :=
  (cs.map fun c => c.2.inventory.get r).sum

/-! ## Concrete states used as witnesses and counterexamples -/

/-- A baseline level-1 idle player at the origin. -/
def examplePlayer : Player :=
  { team := 0, id := 0, inventory := Resources.zero, pos := (0, 0)
    direction := .North, elevation := .Level1, satiety := 5, state := .Idle }

/-- Eleven normal `schedule` submissions by client 0. -/
def elevenOps : List (SchedOp Unit) :=
  List.replicate 11 (.schedule () 1 0)

/-- A scheduler in which client 0 already has eleven pending events. -/
def crowdedScheduler : EventScheduler Unit :=
  { events := (List.range 11).map fun i => ⟨(), i, 0, 5⟩
    current_tick := 0
    next_event_id := 11 }

/-- A 2×1 map with no resources anywhere. -/
def bareMap : GameMap :=
  { size := (2, 1), cells := [[Resources.zero, Resources.zero]]
    totals := Resources.zero }

/-- Tick-bug scenario: two live players; an `Incantation` by player 0 that
will fail its preconditions (no linemate on the tile) expires on the same
tick as a `Ko` owed to player 1. -/
def c1State : ServerState :=
  { map := bareMap
    clients := [(0, examplePlayer), (1, { examplePlayer with id := 1, pos := (1, 0) })]
    guis := []
    scheduler :=
      { events := [⟨.Incantation, 0, 0, 1⟩, ⟨.Ko, 1, 1, 1⟩]
        current_tick := 0
        next_event_id := 2 } }

/-- Incantation-scheduling scenario: a lone level-1 player on a tile holding
one linemate, with one earlier pending event expiring at tick 50. -/
def c5State : ServerState :=
  { map :=
      { size := (1, 1), cells := [[{ Resources.zero with linemate := 1 }]]
        totals := { Resources.zero with linemate := 1 } }
    clients := [(0, examplePlayer)]
    guis := []
    scheduler :=
      { events := [⟨.Ko, 5, 0, 50⟩], current_tick := 0, next_event_id := 6 } }

/-- Satiety scenario: player 0 is starving with no food, player 1 is
starving but holds two food; one observer is connected. -/
def c3State : ServerState :=
  { map := bareMap
    clients :=
      [(0, { examplePlayer with satiety := 1 }),
       (1, { examplePlayer with
             id := 1
             satiety := 1
             inventory := { Resources.zero with food := 2 } })]
    guis := [7]
    scheduler := EventScheduler.new }

/-- Take scenario: one player on a 1×1 map whose single cell holds one
food unit. -/
def c6State : ServerState :=
  { map :=
      { size := (1, 1), cells := [[{ Resources.zero with food := 1 }]]
        totals := { Resources.zero with food := 1 } }
    clients := [(0, examplePlayer)]
    guis := []
    scheduler := EventScheduler.new }

/-- Specification-side definition (written from the spec's words, to be
compared with the source-side `inventoryFormat`): the exact key order the
spec prescribes for the Inventory reply. -/
def specInventoryKeyOrder : List Resource :=
  [.Deraumere, .Linemate, .Mendiane, .Phiras, .Sibur, .Thystame, .Food]

/-- The lowercase wire name of each resource kind. -/
def resourceWireName : Resource → String
  | .Deraumere => "deraumere"
  | .Linemate => "linemate"
  | .Mendiane => "mendiane"
  | .Phiras => "phiras"
  | .Sibur => "sibur"
  | .Thystame => "thystame"
  | .Food => "food"

/-- Specification-side definition (from the spec's words): a single
bracketed, comma-separated list of the seven "name count" pairs in
`specInventoryKeyOrder`. -/
def specInventoryReply (r : Resources) : String :=
  "[" ++ String.intercalate ", "
    (specInventoryKeyOrder.map fun k =>
      resourceWireName k ++ " " ++ toString (r.get k)) ++ "]"

/-! ## Lemmas about `get_nb_events_by_player_id` -/

namespace EventScheduler

variable {T : Type}

theorem nbFold_fst (pid : Nat) (l : List (TimedEvent T)) (acc : Nat × Nat) :
    (l.foldl (nbStep pid) acc).1 =
      acc.1 + (l.filter fun e => e.player_id = pid).length := by
  induction l generalizing acc with
  | nil => simp
  | cons x xs ih =>
    by_cases h : x.player_id = pid <;>
      simp [nbStep, h, ih, Nat.add_assoc, Nat.add_comm 1]

theorem nbFold_snd_ge (pid : Nat) (l : List (TimedEvent T)) (acc : Nat × Nat) :
    acc.2 ≤ (l.foldl (nbStep pid) acc).2 := by
  induction l generalizing acc with
  | nil => simp
  | cons x xs ih =>
    refine le_trans ?_ (ih (nbStep pid acc x))
    unfold nbStep
    split
    · dsimp only
      split <;> omega
    · exact le_rfl

theorem nbFold_snd_mem_le (pid : Nat) (l : List (TimedEvent T)) (acc : Nat × Nat)
    (e : TimedEvent T) (he : e ∈ l) (hpid : e.player_id = pid) :
    e.expiration_tick ≤ (l.foldl (nbStep pid) acc).2 := by
  induction l generalizing acc with
  | nil => cases he
  | cons x xs ih =>
    rcases List.mem_cons.mp he with h | h
    · subst h
      refine le_trans ?_ (nbFold_snd_ge pid xs (nbStep pid acc e))
      unfold nbStep
      simp [hpid]
      split <;> omega
    · exact ih (nbStep pid acc x) h

theorem nbFold_snd_cases (pid : Nat) (l : List (TimedEvent T)) (acc : Nat × Nat) :
    (l.foldl (nbStep pid) acc).2 = acc.2 ∨
      ∃ e ∈ l, e.player_id = pid ∧ e.expiration_tick = (l.foldl (nbStep pid) acc).2 := by
  induction l generalizing acc with
  | nil => exact Or.inl rfl
  | cons x xs ih =>
    rcases ih (nbStep pid acc x) with h | ⟨e, he, hp, hexp⟩
    · simp only [List.foldl_cons, h]
      unfold nbStep
      split
      · split
        · exact Or.inr ⟨x, List.mem_cons_self x xs, by assumption, rfl⟩
        · exact Or.inl rfl
      · exact Or.inl rfl
    · exact Or.inr ⟨e, List.mem_cons_of_mem x he, hp, hexp⟩

/-- The counter component counts the player's pending events. -/
theorem get_nb_fst_eq (s : EventScheduler T) (pid : Nat) :
    (s.get_nb_events_by_player_id pid).1 = (s.pendingFor pid).length := by
  simpa using nbFold_fst pid s.events (0, s.current_tick)

/-- `last_action_tick` dominates `current_tick`. -/
theorem get_nb_snd_ge_current (s : EventScheduler T) (pid : Nat) :
    s.current_tick ≤ (s.get_nb_events_by_player_id pid).2 :=
  nbFold_snd_ge pid s.events (0, s.current_tick)

/-- `last_action_tick` dominates every pending expiration of the player. -/
theorem get_nb_snd_ge_mem (s : EventScheduler T) (pid : Nat) (e : TimedEvent T)
    (he : e ∈ s.events) (hpid : e.player_id = pid) :
    e.expiration_tick ≤ (s.get_nb_events_by_player_id pid).2 :=
  nbFold_snd_mem_le pid s.events (0, s.current_tick) e he hpid

/-- `last_action_tick` is attained: it is `current_tick` or the expiration
of one of the player's pending events. -/
theorem get_nb_snd_cases (s : EventScheduler T) (pid : Nat) :
    (s.get_nb_events_by_player_id pid).2 = s.current_tick ∨
      ∃ e ∈ s.events, e.player_id = pid ∧
        e.expiration_tick = (s.get_nb_events_by_player_id pid).2 :=
  nbFold_snd_cases pid s.events (0, s.current_tick)

/-- A fold step on a non-matching event is the identity, so the fold only
sees the player's own events: `get_nb_events_by_player_id` is determined by
`pendingFor` and `current_tick`. -/
theorem nbFold_filter (pid : Nat) (l : List (TimedEvent T)) (acc : Nat × Nat) :
    (l.filter fun e => e.player_id = pid).foldl (nbStep pid) acc =
      l.foldl (nbStep pid) acc := by
  induction l generalizing acc with
  | nil => simp
  | cons x xs ih =>
    by_cases h : x.player_id = pid
    · simp [h, ih]
    · simp [h, ih, nbStep]

theorem get_nb_congr (s s' : EventScheduler T) (pid : Nat)
    (hp : s.pendingFor pid = s'.pendingFor pid)
    (hc : s.current_tick = s'.current_tick) :
    s.get_nb_events_by_player_id pid = s'.get_nb_events_by_player_id pid := by
  unfold get_nb_events_by_player_id
  rw [← nbFold_filter pid s.events, ← nbFold_filter pid s'.events]
  unfold EventScheduler.pendingFor at hp
  rw [hp, hc]

/-- `schedule` above the cap: only the id counter moves; the sentinel `0`
is returned. -/
theorem schedule_reject (s : EventScheduler T) (d : T) (t p : Nat)
    (h : MAX_SIMULTANEOUS_EVENTS < (s.get_nb_events_by_player_id p).1) :
    s.schedule d t p = ({ s with next_event_id := s.next_event_id + 1 }, 0) := by
  unfold schedule
  simp only [h, if_true]

/-- `schedule` at or below the cap: the event is inserted with expiration
`last_tick + cost` and its fresh id is returned. -/
theorem schedule_accept (s : EventScheduler T) (d : T) (t p : Nat)
    (h : (s.get_nb_events_by_player_id p).1 ≤ MAX_SIMULTANEOUS_EVENTS) :
    s.schedule d t p =
      ({ events := ⟨d, s.next_event_id, p, (s.get_nb_events_by_player_id p).2 + t⟩
           :: s.events
         current_tick := s.current_tick
         next_event_id := s.next_event_id + 1 }, s.next_event_id) := by
  unfold schedule
  simp only [if_neg (by omega : ¬ MAX_SIMULTANEOUS_EVENTS < (s.get_nb_events_by_player_id p).1)]

end EventScheduler

/-! ## Per-client filter lemmas -/

namespace EventScheduler

variable {T : Type}

theorem filter_pid_map (l : List (TimedEvent T)) (f : TimedEvent T → TimedEvent T)
    (hf : ∀ e, (f e).player_id = e.player_id) (pid : Nat) :
    (l.map f).filter (fun e => e.player_id = pid) =
      (l.filter fun e => e.player_id = pid).map f := by
  induction l with
  | nil => simp
  | cons x xs ih =>
    by_cases h : x.player_id = pid <;> simp [hf, h, ih]

theorem pendingFor_shift (s : EventScheduler T) (i pid : Nat) (delta : Int) :
    (s.shift_client_events i delta).pendingFor pid =
      (s.pendingFor pid).map fun e =>
        if e.player_id = i then
          { e with expiration_tick := shiftExp e.expiration_tick delta s.current_tick }
        else e := by
  unfold shift_client_events pendingFor
  exact filter_pid_map s.events _ (fun e => by split <;> rfl) pid

/-- Shifting the events of a *different* client leaves the client's pending
list untouched. -/
theorem pendingFor_shift_ne (s : EventScheduler T) (i pid : Nat) (delta : Int)
    (h : i ≠ pid) :
    (s.shift_client_events i delta).pendingFor pid = s.pendingFor pid := by
  rw [pendingFor_shift]
  have hall : ∀ e ∈ s.pendingFor pid,
      (if e.player_id = i then
        { e with expiration_tick := shiftExp e.expiration_tick delta s.current_tick }
      else e) = id e := by
    intro e he
    have hp : e.player_id = pid := by simpa using List.of_mem_filter he
    rw [if_neg (by omega), id]
  rw [List.map_congr_left hall, List.map_id]

/-- Force-scheduling for a *different* client leaves the client's pending
list untouched. -/
theorem pendingFor_force_ne (s : EventScheduler T) (d : T) (t i pid : Nat)
    (h : i ≠ pid) :
    ((s.force_schedule d t i).1).pendingFor pid = s.pendingFor pid := by
  unfold force_schedule pendingFor
  simp [h]

theorem pendingFor_filter_sub (s : EventScheduler T) (q : TimedEvent T → Bool) (pid : Nat) :
    ((s.events.filter q).filter fun e => e.player_id = pid) =
      (s.pendingFor pid).filter q := by
  unfold pendingFor
  rw [List.filter_filter, List.filter_filter]
  apply List.filter_congr
  intro e _
  exact Bool.and_comm _ _

end EventScheduler

/-! ## Claim theorems: scheduler id sentinel (C10) -/

/-- C10: on a fresh scheduler the first accepted `schedule` call inserts its
event with `event_id = 0` and returns `0` — the same value `schedule` uses
as its cap-rejection sentinel — and `next_event_id` advances even on a
rejected call, so rejected submissions consume event ids. -/
theorem first_event_id_is_rejection_sentinel {T : Type} (d : T) (t p : Nat) :
    ((EventScheduler.new.schedule d t p).1.events.map (·.event_id) = [0] ∧
      (EventScheduler.new.schedule d t p).2 = 0) ∧
    (∀ (s : EventScheduler T) (d' : T) (t' p' : Nat),
      MAX_SIMULTANEOUS_EVENTS < (s.get_nb_events_by_player_id p').1 →
        (s.schedule d' t' p').2 = 0 ∧ (s.schedule d' t' p').1.events = s.events) ∧
    (∀ (s : EventScheduler T) (d' : T) (t' p' : Nat),
      (s.schedule d' t' p').1.next_event_id = s.next_event_id + 1) := by
  refine ⟨?_, ?_, ?_⟩
  · constructor
    · rw [EventScheduler.schedule_accept _ d t p (by
        simp [EventScheduler.get_nb_events_by_player_id, EventScheduler.new,
          MAX_SIMULTANEOUS_EVENTS])]
      simp [EventScheduler.new]
    · rw [EventScheduler.schedule_accept _ d t p (by
        simp [EventScheduler.get_nb_events_by_player_id, EventScheduler.new,
          MAX_SIMULTANEOUS_EVENTS])]
      simp [EventScheduler.new]
  · intro s d' t' p' h
    rw [EventScheduler.schedule_reject s d' t' p' h]
    exact ⟨rfl, rfl⟩
  · intro s d' t' p'
    by_cases h : MAX_SIMULTANEOUS_EVENTS < (s.get_nb_events_by_player_id p').1
    · rw [EventScheduler.schedule_reject s d' t' p' h]
    · rw [EventScheduler.schedule_accept s d' t' p' (by omega)]

/-- Witness for the C10 theorem at concrete inputs: the fresh scheduler's
first event id collides with the sentinel, and a rejected call on the
crowded scheduler still consumes an id. -/
theorem first_event_id_is_rejection_sentinel_witness :
    ((EventScheduler.new.schedule () 7 3).1.events.map (·.event_id) = [0] ∧
      (EventScheduler.new.schedule () 7 3).2 = 0) ∧
    ((crowdedScheduler.schedule () 1 0).2 = 0 ∧
      (crowdedScheduler.schedule () 1 0).1.events = crowdedScheduler.events) ∧
    (crowdedScheduler.schedule () 1 0).1.next_event_id =
      crowdedScheduler.next_event_id + 1 := by
  refine ⟨(first_event_id_is_rejection_sentinel () 7 3).1,
    (first_event_id_is_rejection_sentinel () 7 3).2.1 crowdedScheduler () 1 0 (by decide),
    (first_event_id_is_rejection_sentinel () 7 3).2.2 crowdedScheduler () 1 0⟩

/-! ## Claim theorems: per-client in-flight cap (C2) -/

/-- C2 fails as stated: eleven plain `schedule` calls by one client are all
accepted (the guard `nb_events > MAX_SIMULTANEOUS_EVENTS` fires only from
the twelfth on), so a reachable state holds 11 > 10 pending events for
client 0. -/
theorem per_client_cap_counterexample :
    ((runOps elevenOps).get_nb_events_by_player_id 0).1 = 11 ∧
    ¬ ((runOps elevenOps).get_nb_events_by_player_id 0).1 ≤ MAX_SIMULTANEOUS_EVENTS := by
  decide

theorem cap_step {T : Type} (s : EventScheduler T) (op : SchedOp T)
    (hop : op.isForce = false)
    (h : ∀ pid, (s.pendingFor pid).length ≤ MAX_SIMULTANEOUS_EVENTS + 1) :
    ∀ pid, ((SchedOp.apply s op).pendingFor pid).length ≤ MAX_SIMULTANEOUS_EVENTS + 1 := by
  intro pid
  cases op with
  | schedule d t p =>
    by_cases hc : MAX_SIMULTANEOUS_EVENTS < (s.get_nb_events_by_player_id p).1
    · simp only [SchedOp.apply]
      rw [EventScheduler.schedule_reject s d t p hc]
      exact h pid
    · simp only [SchedOp.apply]
      rw [EventScheduler.schedule_accept s d t p (by omega)]
      show (((⟨d, s.next_event_id, p, (s.get_nb_events_by_player_id p).2 + t⟩ :
          TimedEvent T)
          :: s.events).filter fun e => e.player_id = pid).length ≤
        MAX_SIMULTANEOUS_EVENTS + 1
      by_cases hp : p = pid
      · have hcount : (s.pendingFor p).length ≤ MAX_SIMULTANEOUS_EVENTS := by
          have := EventScheduler.get_nb_fst_eq s p
          omega
        subst hp
        have hlen : (s.pendingFor p).length ≤ MAX_SIMULTANEOUS_EVENTS := hcount
        simp only [List.filter_cons, decide_eq_true_eq, if_pos trivial, if_true]
        have : (s.events.filter fun e => e.player_id = p).length =
            (s.pendingFor p).length := rfl
        simp only [List.length_cons]
        omega
      · simp only [List.filter_cons, decide_eq_true_eq]
        rw [if_neg hp]
        exact h pid
  | force d t p => simp [SchedOp.isForce] at hop
  | tickOne =>
    show (((s.events.filter _).filter fun e => e.player_id = pid)).length ≤ _
    rw [EventScheduler.pendingFor_filter_sub]
    exact le_trans (List.length_filter_le _ _) (h pid)
  | tickMany n =>
    show (((s.events.filter _).filter fun e => e.player_id = pid)).length ≤ _
    rw [EventScheduler.pendingFor_filter_sub]
    exact le_trans (List.length_filter_le _ _) (h pid)
  | shift p delta =>
    show ((s.shift_client_events p delta).pendingFor pid).length ≤ _
    rw [EventScheduler.pendingFor_shift, List.length_map]
    exact h pid
  | cancel e =>
    show (((s.events.filter _).filter fun e => e.player_id = pid)).length ≤ _
    rw [EventScheduler.pendingFor_filter_sub]
    exact le_trans (List.length_filter_le _ _) (h pid)

theorem cap_fold {T : Type} :
    ∀ (ops : List (SchedOp T)) (s : EventScheduler T),
      (∀ op ∈ ops, op.isForce = false) →
      (∀ pid, (s.pendingFor pid).length ≤ MAX_SIMULTANEOUS_EVENTS + 1) →
      ∀ pid, ((ops.foldl SchedOp.apply s).pendingFor pid).length ≤
        MAX_SIMULTANEOUS_EVENTS + 1 := by
  intro ops
  induction ops with
  | nil => intro s _ h pid; exact h pid
  | cons op ops ih =>
    intro s hops h
    exact ih (SchedOp.apply s op)
      (fun o ho => hops o (List.mem_cons_of_mem op ho))
      (cap_step s op (hops op (List.mem_cons_self op ops)) h)

/-- C2 (amended): the cap actually enforced by `schedule` is eleven, not
ten — in every scheduler state reachable from `EventScheduler::new()` by
the public operations other than `force_schedule`, each client has at most
`MAX_SIMULTANEOUS_EVENTS + 1 = 11` pending events; and a `schedule` call
made while the client already has more than ten pending events is rejected
with the sentinel id `0` and inserts nothing. -/
theorem per_client_cap_eleven {T : Type} :
    (∀ ops : List (SchedOp T), (∀ op ∈ ops, op.isForce = false) → ∀ pid,
      ((runOps ops).get_nb_events_by_player_id pid).1 ≤ MAX_SIMULTANEOUS_EVENTS + 1) ∧
    (∀ (s : EventScheduler T) (d : T) (t p : Nat),
      MAX_SIMULTANEOUS_EVENTS < (s.get_nb_events_by_player_id p).1 →
        (s.schedule d t p).2 = 0 ∧ (s.schedule d t p).1.events = s.events) := by
  constructor
  · intro ops hops pid
    rw [EventScheduler.get_nb_fst_eq]
    exact cap_fold ops EventScheduler.new hops (fun _ => by simp [EventScheduler.new,
      EventScheduler.pendingFor]) pid
  · intro s d t p h
    rw [EventScheduler.schedule_reject s d t p h]
    exact ⟨rfl, rfl⟩

/-- Witness for the C2 amended theorem at concrete inputs: the eleven-call
trace stays within the cap of eleven, and the crowded scheduler rejects
without inserting. -/
theorem per_client_cap_eleven_witness :
    ((runOps elevenOps).get_nb_events_by_player_id 0).1 ≤ MAX_SIMULTANEOUS_EVENTS + 1 ∧
    ((crowdedScheduler.schedule () 1 0).2 = 0 ∧
      (crowdedScheduler.schedule () 1 0).1.events = crowdedScheduler.events) :=
  ⟨per_client_cap_eleven.1 elevenOps (by decide) 0,
   per_client_cap_eleven.2 crowdedScheduler () 1 0 (by decide)⟩

/-! ## Claim theorems: sound direction (C7, C8) -/

/-- C7: `get_sound_direction` returns `0` exactly when emitter and receiver
share a position, otherwise a sector in `{1..8}`; and the result never
depends on the emitter's heading (`Emitter::from` drops it). -/
theorem sound_direction_spec :
    (∀ (e : Emitter) (r : Receiver) (size : Nat × Nat), 0 < size.1 → 0 < size.2 →
      (get_sound_direction e r size = 0 ↔ e.pos = r.pos)) ∧
    (∀ (e : Emitter) (r : Receiver) (size : Nat × Nat), 0 < size.1 → 0 < size.2 →
      e.pos ≠ r.pos →
      1 ≤ get_sound_direction e r size ∧ get_sound_direction e r size ≤ 8) ∧
    (∀ (p1 p2 : Player) (r : Receiver) (size : Nat × Nat), p1.pos = p2.pos →
      get_sound_direction (Emitter.fromPlayer p1) r size =
        get_sound_direction (Emitter.fromPlayer p2) r size) := by
  have hrange : ∀ (e : Emitter) (r : Receiver) (size : Nat × Nat), e.pos ≠ r.pos →
      1 ≤ get_sound_direction e r size ∧ get_sound_direction e r size ≤ 8 := by
    intro e r size hne
    unfold get_sound_direction
    rw [if_neg hne]
    have key : ∀ x : Int, 1 ≤ (x.emod 8 + 1).toNat ∧ (x.emod 8 + 1).toNat ≤ 8 := by
      intro x
      have h0 : (0 : Int) ≤ x.emod 8 := Int.emod_nonneg _ (by norm_num)
      have h8 : x.emod 8 < 8 := Int.emod_lt_of_pos _ (by norm_num)
      omega
    exact key _
  refine ⟨?_, fun e r size _ _ hne => hrange e r size hne, ?_⟩
  · intro e r size _ _
    constructor
    · intro h
      by_contra hne
      have := (hrange e r size hne).1
      omega
    · intro h
      unfold get_sound_direction
      rw [if_pos h]
  · intro p1 p2 r size h
    unfold Emitter.fromPlayer
    rw [h]

/-- Witness for the C7 theorem at concrete inputs. -/
theorem sound_direction_spec_witness :
    (get_sound_direction ⟨(2, 2)⟩ ⟨(2, 2), .North⟩ (5, 5) = 0 ↔
      ((2, 2) : Nat × Nat) = ((2, 2) : Nat × Nat)) ∧
    (1 ≤ get_sound_direction ⟨(0, 0)⟩ ⟨(1, 1), .East⟩ (5, 5) ∧
      get_sound_direction ⟨(0, 0)⟩ ⟨(1, 1), .East⟩ (5, 5) ≤ 8) ∧
    get_sound_direction
        (Emitter.fromPlayer examplePlayer)
        ⟨(1, 0), .South⟩ (2, 1) =
      get_sound_direction
        (Emitter.fromPlayer { examplePlayer with direction := .East })
        ⟨(1, 0), .South⟩ (2, 1) :=
  ⟨sound_direction_spec.1 ⟨(2, 2)⟩ ⟨(2, 2), .North⟩ (5, 5) (by decide) (by decide),
   sound_direction_spec.2.1 ⟨(0, 0)⟩ ⟨(1, 1), .East⟩ (5, 5)
     (by decide) (by decide) (by decide),
   sound_direction_spec.2.2 examplePlayer
     { examplePlayer with direction := .East } ⟨(1, 0), .South⟩ (2, 1) rfl⟩

/-- C8 fails as stated: on the 10×8 torus with the emitter at (0,6) and the
receiver at (9,3) heading North, the code computes sector 1, not 5. -/
theorem broadcast_sector_counterexample :
    get_sound_direction ⟨(0, 6)⟩ ⟨(9, 3), .North⟩ (10, 8) ≠ 5 := by
  decide

/-- C8 (amended): the computed sector is 1, so the receiver's broadcast
line is `message 1, hello\n`. -/
theorem broadcast_sector_value :
    get_sound_direction ⟨(0, 6)⟩ ⟨(9, 3), .North⟩ (10, 8) = 1 ∧
    broadcastLine (get_sound_direction ⟨(0, 6)⟩ ⟨(9, 3), .North⟩ (10, 8)) "hello" =
      "message 1, hello\n" := by
  constructor
  · decide
  · rfl

/-! ## Claim theorem: inventory reply format (C9) -/

/-- C9: the source `InventoryFormat` renders exactly the spec's bracketed,
comma-separated "name count" list in the key order deraumere, linemate,
mendiane, phiras, sibur, thystame, food. -/
theorem inventory_reply_format (r : Resources) :
    inventoryFormat r = specInventoryReply r := by
  have hR : specInventoryReply r =
      "[" ++
        (("deraumere" ++ " " ++ toString r.deraumere) ++ ", " ++
          ("linemate" ++ " " ++ toString r.linemate) ++ ", " ++
          ("mendiane" ++ " " ++ toString r.mendiane) ++ ", " ++
          ("phiras" ++ " " ++ toString r.phiras) ++ ", " ++
          ("sibur" ++ " " ++ toString r.sibur) ++ ", " ++
          ("thystame" ++ " " ++ toString r.thystame) ++ ", " ++
          ("food" ++ " " ++ toString r.food)) ++ "]" := rfl
  rw [hR]
  unfold inventoryFormat
  rw [show ("[deraumere " : String) = "[" ++ ("deraumere" ++ " ") from rfl,
      show (", linemate " : String) = ", " ++ ("linemate" ++ " ") from rfl,
      show (", mendiane " : String) = ", " ++ ("mendiane" ++ " ") from rfl,
      show (", phiras " : String) = ", " ++ ("phiras" ++ " ") from rfl,
      show (", sibur " : String) = ", " ++ ("sibur" ++ " ") from rfl,
      show (", thystame " : String) = ", " ++ ("thystame" ++ " ") from rfl,
      show (", food " : String) = ", " ++ ("food" ++ " ") from rfl]
  simp only [String.append_assoc]

/-! ## Claim theorem: tick processing drops events after a failed
incantation (C1) -/

/-- C1 fails on the code: on `c1State`'s tick two events expire (player 0's
`Incantation`, which fails its preconditions, then player 1's `Ko`), but the
failing `Incantation` arm executes `return` — so the only output of the tick
is the `ko` to player 0, player 1's already-popped `Ko` event is dropped
without any reply (the scheduler is empty afterwards), and neither player's
satiety is decremented (both still hold the pre-tick value 5, where the
claim requires 4). -/
theorem tick_return_drops_events_and_satiety :
    (Server.update c1State).2 = [Out.toPlayer 0 .ko] ∧
    getClient (Server.update c1State).1.clients 0 = some examplePlayer ∧
    getClient (Server.update c1State).1.clients 1 =
      some { examplePlayer with id := 1, pos := (1, 0) } ∧
    examplePlayer.satiety = 5 ∧
    (Server.update c1State).1.scheduler.events = [] := by
  decide

/-! ## Claim theorem: Take accounting (C6) -/

theorem sum_set_nat (l : List Nat) (i a : Nat) (h : i < l.length) :
    (l.set i a).sum + l.getD i 0 = l.sum + a := by
  induction l generalizing i with
  | nil => simp at h
  | cons x xs ih =>
    cases i with
    | zero => simp [List.set]; omega
    | succ n =>
      simp only [List.set, List.getD_cons_succ, List.sum_cons]
      have := ih n (by simpa using h)
      omega

theorem getD_map_sum (l : List (List Resources)) (r : Resource) (i : Nat) :
    (l.map fun row => (row.map fun c => c.get r).sum).getD i 0 =
      ((l.getD i []).map fun c => c.get r).sum := by
  induction l generalizing i with
  | nil => simp
  | cons x xs ih =>
    cases i with
    | zero => simp
    | succ n => simpa using ih n

theorem getD_map_get (row : List Resources) (r : Resource) (i : Nat) :
    (row.map fun c => c.get r).getD i 0 = (row.getD i Resources.zero).get r := by
  induction row generalizing i with
  | nil =>
    show (0 : Nat) = Resources.zero.get r
    cases r <;> rfl
  | cons x xs ih =>
    cases i with
    | zero => simp
    | succ n => simpa using ih n

/-- Writing one cell changes the per-resource grid total by exactly the
difference between the new and old cell. -/
theorem cellSumRes_setCellAt (m : GameMap) (pos : Nat × Nat) (c : Resources)
    (r : Resource) (hy : pos.2 < m.cells.length)
    (hx : pos.1 < (m.cells.getD pos.2 []).length) :
    cellSumRes (m.setCellAt pos c) r + (m.cellAt pos).get r =
      cellSumRes m r + c.get r := by
  unfold cellSumRes GameMap.setCellAt GameMap.cellAt
  rw [List.map_set]
  have hX : (((m.cells.getD pos.2 []).set pos.1 c).map fun cc => cc.get r) =
      ((m.cells.getD pos.2 []).map fun cc => cc.get r).set pos.1 (c.get r) :=
    List.map_set
  rw [hX]
  have houter := sum_set_nat (m.cells.map fun row => (row.map fun cc => cc.get r).sum)
    pos.2 (((m.cells.getD pos.2 []).map fun cc => cc.get r).set pos.1 (c.get r)).sum
    (by simpa using hy)
  rw [getD_map_sum] at houter
  have hinner := sum_set_nat ((m.cells.getD pos.2 []).map fun cc => cc.get r)
    pos.1 (c.get r) (by simpa using hx)
  rw [getD_map_get] at hinner
  omega

theorem getClient_updateClient (cs : List (Nat × Player)) (i : Nat)
    (f : Player → Player) :
    getClient (updateClient cs i f) i = (getClient cs i).map f := by
  induction cs with
  | nil => simp [getClient, updateClient]
  | cons c rest ih =>
    by_cases hc : c.1 = i
    · simp [getClient, updateClient, hc]
    · simp [getClient, updateClient, hc, ih]

theorem invSum_updateClient (cs : List (Nat × Player)) (i : Nat)
    (f : Player → Player) (p : Player) (h : getClient cs i = some p) (r : Resource) :
    invSumRes (updateClient cs i f) r + p.inventory.get r =
      invSumRes cs r + (f p).inventory.get r := by
  induction cs with
  | nil => simp [getClient] at h
  | cons c rest ih =>
    by_cases hc : c.1 = i
    · unfold getClient at h
      rw [if_pos hc] at h
      injection h with h
      subst h
      unfold updateClient invSumRes
      rw [if_pos hc]
      simp only [List.map_cons, List.sum_cons]
      omega
    · unfold getClient at h
      rw [if_neg hc] at h
      unfold updateClient invSumRes
      rw [if_neg hc]
      simp only [List.map_cons, List.sum_cons]
      have := ih h
      unfold invSumRes at this
      omega

theorem get_seti_same (x : Resources) (k : Resource) (n : Nat) :
    (x.seti k n).get k = n := by
  cases k <;> rfl

theorem cellAt_setCellAt (m : GameMap) (pos : Nat × Nat) (c : Resources)
    (hy : pos.2 < m.cells.length)
    (hx : pos.1 < (m.cells.getD pos.2 []).length) :
    (m.setCellAt pos c).cellAt pos = c := by
  unfold GameMap.setCellAt GameMap.cellAt
  have h1 : (m.cells.set pos.2 ((m.cells.getD pos.2 []).set pos.1 c)).getD pos.2 [] =
      (m.cells.getD pos.2 []).set pos.1 c := by
    rw [List.getD_eq_getElem?_getD, List.getElem?_set_self (by simpa using hy)]
    rfl
  rw [h1, List.getD_eq_getElem?_getD, List.getElem?_set_self (by simpa using hx)]
  rfl

/-- C6: applying a `Take r` event for a live player.  When the cell holds
at least one unit of `r`, the cell loses one unit, the player's inventory
gains one unit, the world total (all cells plus all inventories) of `r` is
conserved, and the actor is sent `ok`; when the cell holds none, both the
world and the player are untouched and the actor is sent `ko`. -/
theorem take_event_spec (st : ServerState) (r : Resource) (eid pid exp : Nat)
    (p : Player) (hp : getClient st.clients pid = some p)
    (hy : p.pos.2 < st.map.cells.length)
    (hx : p.pos.1 < (st.map.cells.getD p.pos.2 []).length) :
    (1 ≤ (st.map.cellAt p.pos).get r →
      ((Server.applyOne st ⟨.Take r, eid, pid, exp⟩).1.map.cellAt p.pos).get r =
          (st.map.cellAt p.pos).get r - 1 ∧
      (∃ q, getClient (Server.applyOne st ⟨.Take r, eid, pid, exp⟩).1.clients pid =
          some q ∧ q.inventory.get r = p.inventory.get r + 1) ∧
      cellSumRes (Server.applyOne st ⟨.Take r, eid, pid, exp⟩).1.map r +
          invSumRes (Server.applyOne st ⟨.Take r, eid, pid, exp⟩).1.clients r =
        cellSumRes st.map r + invSumRes st.clients r ∧
      Out.toPlayer pid .ok ∈ (Server.applyOne st ⟨.Take r, eid, pid, exp⟩).2.1) ∧
    ((st.map.cellAt p.pos).get r = 0 →
      (Server.applyOne st ⟨.Take r, eid, pid, exp⟩).1 = st ∧
      (Server.applyOne st ⟨.Take r, eid, pid, exp⟩).2.1 = [Out.toPlayer pid .ko]) := by
  have hcellsum_totals : ∀ (m : GameMap) (t : Resources),
      cellSumRes { m with totals := t } r = cellSumRes m r := fun _ _ => rfl
  have hcellAt_totals : ∀ (m : GameMap) (t : Resources) (q : Nat × Nat),
      GameMap.cellAt { size := m.size, cells := m.cells, totals := t } q =
        m.cellAt q := fun _ _ _ => rfl
  constructor
  · intro hone
    have hcond : (1 ≤ (st.map.cellAt p.pos).get r) = True := eq_true hone
    simp only [Server.applyOne, hp, GameMap.del_resource, hcond, if_true]
    have hcell := cellAt_setCellAt st.map p.pos
      ((st.map.cellAt p.pos).seti r ((st.map.cellAt p.pos).get r - 1)) hy hx
    refine ⟨?_, ?_, ?_, ?_⟩
    · rw [hcellAt_totals, hcell, get_seti_same]
    · refine ⟨p.add_resource r 1, ?_, ?_⟩
      · rw [getClient_updateClient, hp]
        rfl
      · show (p.inventory.seti r (p.inventory.get r + 1)).get r = _
        rw [get_seti_same]
    · have hcells := cellSumRes_setCellAt st.map p.pos
        ((st.map.cellAt p.pos).seti r ((st.map.cellAt p.pos).get r - 1)) r hy hx
      rw [get_seti_same] at hcells
      have hinv := invSum_updateClient st.clients pid
        (fun _ => p.add_resource r 1) p hp r
      have hadd : ((fun _ => p.add_resource r 1) p).inventory.get r =
          p.inventory.get r + 1 := get_seti_same _ _ _
      rw [hadd] at hinv
      rw [hcellsum_totals]
      omega
    · simp
  · intro hnone
    have hcond : (1 ≤ (st.map.cellAt p.pos).get r) = False :=
      eq_false (by omega)
    simp only [Server.applyOne, hp, GameMap.del_resource, hcond, if_false]
    constructor <;> first | rfl | trivial

/-- Witness for the C6 theorem on the concrete one-cell world: taking the
single food unit, and failing to take absent linemate. -/
theorem take_event_spec_witness :
    (((Server.applyOne c6State ⟨.Take .Food, 0, 0, 1⟩).1.map.cellAt
        examplePlayer.pos).get .Food =
          (c6State.map.cellAt examplePlayer.pos).get .Food - 1 ∧
      (∃ q, getClient (Server.applyOne c6State ⟨.Take .Food, 0, 0, 1⟩).1.clients 0 =
          some q ∧ q.inventory.get .Food = examplePlayer.inventory.get .Food + 1) ∧
      cellSumRes (Server.applyOne c6State ⟨.Take .Food, 0, 0, 1⟩).1.map .Food +
          invSumRes (Server.applyOne c6State ⟨.Take .Food, 0, 0, 1⟩).1.clients .Food =
        cellSumRes c6State.map .Food + invSumRes c6State.clients .Food ∧
      Out.toPlayer 0 .ok ∈ (Server.applyOne c6State ⟨.Take .Food, 0, 0, 1⟩).2.1) ∧
    ((Server.applyOne c6State ⟨.Take .Linemate, 0, 0, 1⟩).1 = c6State ∧
      (Server.applyOne c6State ⟨.Take .Linemate, 0, 0, 1⟩).2.1 =
        [Out.toPlayer 0 .ko]) :=
  ⟨(take_event_spec c6State .Food 0 0 1 examplePlayer rfl (by decide) (by decide)).1
      (by decide),
   (take_event_spec c6State .Linemate 0 0 1 examplePlayer rfl (by decide)
      (by decide)).2 (by decide)⟩

/-! ## Claim theorem: satiety and death (C3) -/

theorem satiety_fold (l : List (Nat × Player)) (acc : List (Nat × Player))
    (outs : List Out) :
    l.foldl satietyStep (acc, outs) =
      (acc ++ l.map fun c => (c.1, (c.2.reduce_satiety SATIETY_LOSS_PER_TICK).1),
       outs ++ l.filterMap fun c =>
         if (c.2.reduce_satiety SATIETY_LOSS_PER_TICK).2 = 0 then
           some (Out.toPlayer c.1 .dead) else none) := by
  induction l generalizing acc outs with
  | nil => simp
  | cons c rest ih =>
    by_cases h : (c.2.reduce_satiety SATIETY_LOSS_PER_TICK).2 = 0 <;>
      simp [satietyStep, h, ih, List.filterMap_cons]

/-- `Server::reduce_satiety` as a map over the players plus the `Dead`
sends for those whose returned satiety is zero. -/
theorem reduce_satiety_eq (st : ServerState) :
    Server.reduce_satiety st =
      ({ st with clients := st.clients.map fun c =>
           (c.1, (c.2.reduce_satiety SATIETY_LOSS_PER_TICK).1) },
       st.clients.filterMap fun c =>
         if (c.2.reduce_satiety SATIETY_LOSS_PER_TICK).2 = 0 then
           some (Out.toPlayer c.1 .dead) else none) := by
  unfold Server.reduce_satiety
  rw [satiety_fold]
  simp

theorem disconnect_fold_guis (ids : List Nat) (st0 : ServerState) (outs0 : List Out) :
    (ids.foldl disconnectStep (st0, outs0)).1.guis = st0.guis := by
  induction ids generalizing st0 outs0 with
  | nil => rfl
  | cons i ids ih => simpa using ih _ _

theorem disconnect_fold_outs (ids : List Nat) (st0 : ServerState) (outs0 : List Out) :
    (ids.foldl disconnectStep (st0, outs0)).2 =
      outs0 ++ ids.flatMap fun i => st0.guis.map fun g => Out.toGui g (.pdi i) := by
  induction ids generalizing st0 outs0 with
  | nil => simp
  | cons i ids ih =>
    simp only [List.foldl_cons, List.flatMap_cons]
    rw [ih]
    simp [disconnectStep, Server.handle_ai_disconnected]

theorem disconnect_fold_clients (ids : List Nat) (st0 : ServerState) (outs0 : List Out) :
    (ids.foldl disconnectStep (st0, outs0)).1.clients =
      st0.clients.filter fun c => ¬ c.1 ∈ ids := by
  induction ids generalizing st0 outs0 with
  | nil => simp
  | cons i ids ih =>
    simp only [List.foldl_cons]
    rw [ih]
    show ((st0.clients.filter fun c => ¬ c.1 = i).filter fun c => ¬ c.1 ∈ ids) = _
    rw [List.filter_filter]
    apply List.filter_congr
    intro c _
    by_cases h1 : c.1 = i <;> by_cases h2 : c.1 ∈ ids <;> simp [h1, h2]

theorem getClient_eq_none (cs : List (Nat × Player)) (i : Nat)
    (h : ∀ c ∈ cs, c.1 ≠ i) : getClient cs i = none := by
  induction cs with
  | nil => rfl
  | cons c rest ih =>
    unfold getClient
    rw [if_neg (h c (List.mem_cons_self c rest))]
    exact ih fun d hd => h d (List.mem_cons_of_mem c hd)

theorem nodup_key_eq (cs : List (Nat × Player))
    (hnd : (cs.map Prod.fst).Nodup) (i : Nat) (a b : Player)
    (ha : (i, a) ∈ cs) (hb : (i, b) ∈ cs) : a = b := by
  induction cs with
  | nil => cases ha
  | cons c rest ih =>
    simp only [List.map_cons, List.nodup_cons] at hnd
    rcases List.mem_cons.mp ha with h1 | h1 <;> rcases List.mem_cons.mp hb with h2 | h2
    · exact congrArg Prod.snd (h1.trans h2.symm)
    · exfalso
      have hm : i ∈ rest.map Prod.fst := by
        simpa using List.mem_map_of_mem Prod.fst h2
      exact hnd.1 (by rw [← h1]; exact hm)
    · exfalso
      have hm : i ∈ rest.map Prod.fst := by
        simpa using List.mem_map_of_mem Prod.fst h1
      exact hnd.1 (by rw [← h2]; exact hm)
    · exact ih hnd.2 h1 h2

/-- The starving branch of `Player::reduce_satiety`: at satiety ≤ 1 with no
food, the returned value is `0` and the player keeps zero satiety. -/
theorem reduce_satiety_starving (p : Player) (hsat : p.satiety ≤ 1)
    (hfood : p.inventory.get .Food = 0) :
    p.reduce_satiety SATIETY_LOSS_PER_TICK =
      ({ p with satiety := 0 }, 0) := by
  unfold Player.reduce_satiety
  rw [show p.satiety - SATIETY_LOSS_PER_TICK = 0 from by
    unfold SATIETY_LOSS_PER_TICK; omega]
  rw [if_pos rfl, if_neg (by omega)]

/-- The refill branch of `Player::reduce_satiety`: at satiety ≤ 1 with at
least one food, one food is consumed and satiety becomes
`REFILL_PER_FOOD`. -/
theorem reduce_satiety_refill (p : Player) (hsat : p.satiety ≤ 1)
    (hfood : 1 ≤ p.inventory.get .Food) :
    p.reduce_satiety SATIETY_LOSS_PER_TICK =
      ({ p with
          inventory := p.inventory.seti .Food (p.inventory.get .Food - 1)
          satiety := REFILL_PER_FOOD }, REFILL_PER_FOOD) := by
  unfold Player.reduce_satiety
  rw [show p.satiety - SATIETY_LOSS_PER_TICK = 0 from by
    unfold SATIETY_LOSS_PER_TICK; omega]
  rw [if_pos rfl, if_pos (by omega)]
  simp

/-- C3: a live player whose satiety decrement reaches zero.  With no food,
the player dies: the server sends it `Dead`, the connection writes
`"dead\n"` and closes, the observers are notified with `pdi`, and the
player is removed from the live map.  With at least one food, one food is
consumed and satiety becomes 126 (`REFILL_PER_FOOD`), and the player
survives. -/
theorem satiety_death_spec (st : ServerState) (i : Nat) (p : Player)
    (hmem : (i, p) ∈ st.clients)
    (hnd : (st.clients.map Prod.fst).Nodup)
    (hsat : p.satiety ≤ 1) :
    (p.inventory.get .Food = 0 →
      Out.toPlayer i .dead ∈ (Server.satietyAndDeaths st).2.1 ∧
      AiHandler.handle_command .dead = .changeStateDead "dead\n" ∧
      (i, "dead\n", true) ∈ (Server.satietyAndDeaths st).2.2 ∧
      (∀ g ∈ st.guis, Out.toGui g (.pdi i) ∈ (Server.satietyAndDeaths st).2.1) ∧
      getClient (Server.satietyAndDeaths st).1.clients i = none) ∧
    (1 ≤ p.inventory.get .Food →
      (i, { p with
            inventory := p.inventory.seti .Food (p.inventory.get .Food - 1)
            satiety := REFILL_PER_FOOD }) ∈
        (Server.satietyAndDeaths st).1.clients) := by
  have houts1 : (Server.reduce_satiety st).2 =
      st.clients.filterMap fun c =>
        if (c.2.reduce_satiety SATIETY_LOSS_PER_TICK).2 = 0 then
          some (Out.toPlayer c.1 .dead) else none := by
    rw [reduce_satiety_eq]
  have hclients1 : (Server.reduce_satiety st).1.clients =
      st.clients.map fun c => (c.1, (c.2.reduce_satiety SATIETY_LOSS_PER_TICK).1) := by
    rw [reduce_satiety_eq]
  have hguis1 : (Server.reduce_satiety st).1.guis = st.guis := by
    rw [reduce_satiety_eq]
  have hshape : Server.satietyAndDeaths st =
      (((( (Server.reduce_satiety st).2.filterMap deadIdOf).foldl disconnectStep
            ((Server.reduce_satiety st).1, [])).1,
        (Server.reduce_satiety st).2 ++
          (((Server.reduce_satiety st).2.filterMap deadIdOf).foldl disconnectStep
            ((Server.reduce_satiety st).1, [])).2,
        ((Server.reduce_satiety st).2.filterMap deadIdOf).map
          fun j => (j, "dead\n", true))) := rfl
  constructor
  · intro hfood0
    have hred := reduce_satiety_starving p hsat hfood0
    have hdead_out : Out.toPlayer i .dead ∈ (Server.reduce_satiety st).2 := by
      rw [houts1]
      refine List.mem_filterMap.mpr ⟨(i, p), hmem, ?_⟩
      show (if (p.reduce_satiety SATIETY_LOSS_PER_TICK).2 = 0 then
        some (Out.toPlayer i .dead) else none) = some (Out.toPlayer i .dead)
      rw [hred]
      rfl
    have hdeadId : i ∈ (Server.reduce_satiety st).2.filterMap deadIdOf :=
      List.mem_filterMap.mpr ⟨Out.toPlayer i .dead, hdead_out, rfl⟩
    rw [hshape]
    refine ⟨List.mem_append_left _ hdead_out, rfl, ?_, ?_, ?_⟩
    · exact List.mem_map_of_mem _ hdeadId
    · intro g hg
      refine List.mem_append_right _ ?_
      rw [disconnect_fold_outs]
      refine List.mem_append_right _ ?_
      refine List.mem_flatMap.mpr ⟨i, hdeadId, ?_⟩
      rw [hguis1]
      exact List.mem_map_of_mem _ hg
    · rw [disconnect_fold_clients]
      apply getClient_eq_none
      intro c hc hci
      have := (List.mem_filter.mp hc).2
      simp only [decide_eq_true_eq] at this
      exact this (hci ▸ hdeadId)
  · intro hfood1
    have hred := reduce_satiety_refill p hsat hfood1
    have hnotin : ¬ i ∈ (Server.reduce_satiety st).2.filterMap deadIdOf := by
      intro hin
      rcases List.mem_filterMap.mp hin with ⟨o, ho, hdo⟩
      have hoeq : o = Out.toPlayer i .dead := by
        cases o with
        | toPlayer j resp =>
          cases resp <;> simp [deadIdOf] at hdo
          rw [hdo]
        | toGui g resp => simp [deadIdOf] at hdo
      rw [hoeq, houts1] at ho
      rcases List.mem_filterMap.mp ho with ⟨c, hc, hfc⟩
      by_cases hz : (c.2.reduce_satiety SATIETY_LOSS_PER_TICK).2 = 0
      · rw [if_pos hz] at hfc
        injection hfc with hfc
        have hc1 : c.1 = i := by
          have := congrArg (fun o => match o with
            | Out.toPlayer j _ => j
            | Out.toGui j _ => j) hfc
          simpa using this
        have hcmem : (i, c.2) ∈ st.clients := by
          rw [← hc1]
          exact hc
        have : c.2 = p := nodup_key_eq st.clients hnd i c.2 p hcmem hmem
        rw [this, hred] at hz
        exact absurd hz (by unfold REFILL_PER_FOOD; omega)
      · rw [if_neg hz] at hfc
        cases hfc
    rw [hshape]
    rw [disconnect_fold_clients]
    refine List.mem_filter.mpr ⟨?_, ?_⟩
    · rw [hclients1]
      have hmm := List.mem_map_of_mem
        (fun c : Nat × Player => (c.1, (c.2.reduce_satiety SATIETY_LOSS_PER_TICK).1))
        hmem
      dsimp only at hmm
      rw [hred] at hmm
      exact hmm
    · simpa using hnotin

/-- Witness for the C3 theorem on the concrete two-player world: player 0
starves and dies, player 1 eats and survives. -/
theorem satiety_death_spec_witness :
    (Out.toPlayer 0 .dead ∈ (Server.satietyAndDeaths c3State).2.1 ∧
      AiHandler.handle_command .dead = .changeStateDead "dead\n" ∧
      (0, "dead\n", true) ∈ (Server.satietyAndDeaths c3State).2.2 ∧
      (∀ g ∈ c3State.guis, Out.toGui g (.pdi 0) ∈ (Server.satietyAndDeaths c3State).2.1) ∧
      getClient (Server.satietyAndDeaths c3State).1.clients 0 = none) ∧
    (1, { examplePlayer with
          id := 1
          satiety := REFILL_PER_FOOD
          inventory := { Resources.zero with food := 1 } }) ∈
      (Server.satietyAndDeaths c3State).1.clients :=
  ⟨(satiety_death_spec c3State 0 { examplePlayer with satiety := 1 }
      (by decide) (by decide) (by decide)).1 (by decide),
   (satiety_death_spec c3State 1
      { examplePlayer with
        id := 1
        satiety := 1
        inventory := { Resources.zero with food := 2 } }
      (by decide) (by decide) (by decide)).2 (by decide)⟩

/-! ## Claim theorems: IncantationEnd scheduling (C5) -/

/-- C5 fails as stated: in `c5State` (one earlier pending event expiring at
tick 50) a validly started incantation stores its `IncantationEnd` with
expiration 350 — serialized after the pending event via the normal
`schedule` path — not at `current_tick + 300 = 300` as a force-schedule
would. -/
theorem incantation_end_force_counterexample :
    (incEndsFor (Server.applyOne c5State ⟨.Incantation, 9, 0, 0⟩).1.scheduler 0).map
        (·.expiration_tick) = [350] ∧
    c5State.scheduler.current_tick + 300 ≠ 350 := by
  decide

theorem incEndsFor_eq_pending (s : EventScheduler Event) (pid : Nat) :
    incEndsFor s pid = (s.pendingFor pid).filter fun e => e.data.isIncantationEnd := by
  unfold incEndsFor EventScheduler.pendingFor
  rw [List.filter_filter]
  apply List.filter_congr
  intro e _
  by_cases h1 : e.data.isIncantationEnd <;> by_cases h2 : e.player_id = pid <;>
    simp [h1, h2]

theorem incant_fold_sched (parts : List Nat) (emitter_id : Nat)
    (acc : ServerState × List Out) :
    (parts.foldl (incantStep emitter_id) acc).1.scheduler.pendingFor emitter_id =
        acc.1.scheduler.pendingFor emitter_id ∧
      (parts.foldl (incantStep emitter_id) acc).1.scheduler.current_tick =
        acc.1.scheduler.current_tick := by
  induction parts generalizing acc with
  | nil => exact ⟨rfl, rfl⟩
  | cons i rest ih =>
    simp only [List.foldl_cons]
    have hstep :
        (incantStep emitter_id acc i).1.scheduler.pendingFor emitter_id =
            acc.1.scheduler.pendingFor emitter_id ∧
          (incantStep emitter_id acc i).1.scheduler.current_tick =
            acc.1.scheduler.current_tick := by
      unfold incantStep
      by_cases h : i ≠ emitter_id
      · rw [if_pos h]
        constructor
        · show ((EventScheduler.force_schedule
              (EventScheduler.shift_client_events _ i 300) Event.Phantom 300
                i).1.pendingFor emitter_id) = _
          rw [EventScheduler.pendingFor_force_ne _ _ _ _ _ h,
            EventScheduler.pendingFor_shift_ne _ _ _ _ h]
        · rfl
      · rw [if_neg h]
        exact ⟨rfl, rfl⟩
    have hrest := ih (incantStep emitter_id acc i)
    exact ⟨hrest.1.trans hstep.1, hrest.2.trans hstep.2⟩

/-- C5 (amended): for every validly started incantation exactly one
`IncantationEnd` event is scheduled on the initiator via the *normal*
`schedule` path at cost 300: its stored expiration is the initiator's
`last_tick + 300` (serialized after the initiator's pending events), and it
is subject to the in-flight cap — if the initiator already has more than
ten pending events, the `IncantationEnd` is silently dropped.
`force_schedule` is used for the other participants' `Phantom`
placeholders, not for `IncantationEnd`. -/
theorem incantation_end_scheduling (st : ServerState) (eid pid exp : Nat)
    (emitter : Player) (req : LevelRequirement)
    (hp : getClient st.clients pid = some emitter)
    (hreq : LEVEL_REQUIREMENTS emitter.elevation = some req)
    (hplayers : req.players_needed ≤
      (playersOnTile st emitter.pos emitter.elevation).length)
    (hres : (st.map.cellAt emitter.pos).has_at_least req.resources = true) :
    ((st.scheduler.get_nb_events_by_player_id emitter.id).1 ≤
        MAX_SIMULTANEOUS_EVENTS →
      ∃ newid,
        incEndsFor
            (Server.applyOne st ⟨.Incantation, eid, pid, exp⟩).1.scheduler
            emitter.id =
          ⟨.IncantationEnd (playersOnTile st emitter.pos emitter.elevation) req
              emitter.pos,
            newid, emitter.id,
            (st.scheduler.get_nb_events_by_player_id emitter.id).2 + 300⟩ ::
            incEndsFor st.scheduler emitter.id) ∧
    (MAX_SIMULTANEOUS_EVENTS <
        (st.scheduler.get_nb_events_by_player_id emitter.id).1 →
      incEndsFor (Server.applyOne st ⟨.Incantation, eid, pid, exp⟩).1.scheduler
          emitter.id =
        incEndsFor st.scheduler emitter.id) := by
  have hnot : ¬ ((playersOnTile st emitter.pos emitter.elevation).length <
      req.players_needed ∨
      ¬ (st.map.cellAt emitter.pos).has_at_least req.resources) := by
    rintro (h | h)
    · omega
    · exact h hres
  have happly : (Server.applyOne st ⟨.Incantation, eid, pid, exp⟩).1.scheduler =
      (((playersOnTile st emitter.pos emitter.elevation).foldl
          (incantStep emitter.id) (st, [])).1.scheduler.schedule
        (.IncantationEnd (playersOnTile st emitter.pos emitter.elevation) req
          emitter.pos)
        300 emitter.id).1 := by
    unfold Server.applyOne
    dsimp only
    rw [hp]
    dsimp only
    rw [hreq]
    dsimp only
    rw [if_neg hnot]
  have hfold := incant_fold_sched (playersOnTile st emitter.pos emitter.elevation)
    emitter.id (st, [])
  have hnb : ((playersOnTile st emitter.pos emitter.elevation).foldl
        (incantStep emitter.id) (st, [])).1.scheduler.get_nb_events_by_player_id
        emitter.id =
      st.scheduler.get_nb_events_by_player_id emitter.id :=
    EventScheduler.get_nb_congr _ _ _ hfold.1 hfold.2
  have hpend : incEndsFor (((playersOnTile st emitter.pos emitter.elevation).foldl
        (incantStep emitter.id) (st, [])).1.scheduler) emitter.id =
      incEndsFor st.scheduler emitter.id := by
    rw [incEndsFor_eq_pending, incEndsFor_eq_pending, hfold.1]
  constructor
  · intro hcap
    refine ⟨((playersOnTile st emitter.pos emitter.elevation).foldl
      (incantStep emitter.id) (st, [])).1.scheduler.next_event_id, ?_⟩
    rw [happly, EventScheduler.schedule_accept _ _ _ _ (by rw [hnb]; exact hcap)]
    show List.filter _ (_ :: _) = _
    rw [List.filter_cons, if_pos (by simp [Event.isIncantationEnd])]
    rw [hnb]
    show _ :: incEndsFor (((playersOnTile st emitter.pos emitter.elevation).foldl
      (incantStep emitter.id) (st, [])).1.scheduler) emitter.id = _
    rw [hpend]
  · intro hcap
    rw [happly, EventScheduler.schedule_reject _ _ _ _ (by rw [hnb]; exact hcap)]
    show incEndsFor _ emitter.id = _
    rw [show incEndsFor { ((playersOnTile st emitter.pos emitter.elevation).foldl
        (incantStep emitter.id) (st, [])).1.scheduler with
        next_event_id := ((playersOnTile st emitter.pos emitter.elevation).foldl
          (incantStep emitter.id) (st, [])).1.scheduler.next_event_id + 1 }
        emitter.id =
      incEndsFor (((playersOnTile st emitter.pos emitter.elevation).foldl
        (incantStep emitter.id) (st, [])).1.scheduler) emitter.id from rfl]
    rw [hpend]

/-- Witness for the C5 amended theorem on the concrete `c5State`: the
`IncantationEnd` is appended through `schedule` with expiration
`last_tick + 300 = 350`. -/
theorem incantation_end_scheduling_witness :
    ∃ newid,
      incEndsFor (Server.applyOne c5State ⟨.Incantation, 9, 0, 0⟩).1.scheduler
          examplePlayer.id =
        ⟨.IncantationEnd
            (playersOnTile c5State examplePlayer.pos examplePlayer.elevation)
            ⟨1, { Resources.zero with linemate := 1 }⟩ examplePlayer.pos,
          newid, examplePlayer.id,
          (c5State.scheduler.get_nb_events_by_player_id examplePlayer.id).2 + 300⟩ ::
          incEndsFor c5State.scheduler examplePlayer.id :=
  (incantation_end_scheduling c5State 9 0 0 examplePlayer
      ⟨1, { Resources.zero with linemate := 1 }⟩
      rfl rfl (by decide) (by decide)).1 (by decide)

/-! ## Claim theorem: per-client scheduling discipline (C4) -/

/-- The invariant carried along ghost-instrumented scheduler traces:
pending ids are below the id counter, logged (accepted-`schedule`) ids are
below the counter and strictly decreasing (newest first, i.e. ids grow in
schedule order), and pending logged events of one client are
expiration-ordered by id. -/
structure SchedInv {T : Type} (s : EventScheduler T) (log : List Nat) : Prop where
  idsBound : ∀ e ∈ s.events, e.event_id < s.next_event_id
  logBound : ∀ j ∈ log, j < s.next_event_id
  logSorted : log.Chain' fun a b => b < a
  ordered : pendingOrdered s.events log

theorem shiftExp_mono (e1 e2 : Nat) (delta : Int) (ct : Nat) (h : e1 ≤ e2) :
    EventScheduler.shiftExp e1 delta ct ≤ EventScheduler.shiftExp e2 delta ct := by
  unfold EventScheduler.shiftExp
  by_cases hd : delta < 0 <;> simp [hd] <;> omega

theorem schedInv_filter {T : Type} (s : EventScheduler T) (log : List Nat)
    (q : TimedEvent T → Bool) (ct : Nat) (h : SchedInv s log) :
    SchedInv (⟨s.events.filter q, ct, s.next_event_id⟩ : EventScheduler T) log := by
  refine ⟨?_, h.logBound, h.logSorted, ?_⟩
  · intro e he
    exact h.idsBound e (List.mem_filter.mp he).1
  · intro e1 he1 e2 he2 hpid h1 h2 hid
    exact h.ordered e1 (List.mem_filter.mp he1).1 e2 (List.mem_filter.mp he2).1
      hpid h1 h2 hid

theorem schedInv_step {T : Type} (s : EventScheduler T) (log : List Nat)
    (op : SchedOp T) (h : SchedInv s log) :
    SchedInv (SchedOp.applyG (s, log) op).1 (SchedOp.applyG (s, log) op).2 := by
  cases op with
  | schedule d t p =>
    simp only [SchedOp.applyG]
    by_cases hc : MAX_SIMULTANEOUS_EVENTS < (s.get_nb_events_by_player_id p).1
    · rw [if_pos hc, EventScheduler.schedule_reject s d t p hc]
      refine ⟨?_, ?_, h.logSorted, h.ordered⟩
      · intro e he
        have := h.idsBound e he
        show e.event_id < s.next_event_id + 1
        omega
      · intro j hj
        have := h.logBound j hj
        show j < s.next_event_id + 1
        omega
    · rw [if_neg hc, EventScheduler.schedule_accept s d t p (by omega)]
      refine ⟨?_, ?_, ?_, ?_⟩
      · intro e he
        rcases List.mem_cons.mp he with he | he
        · rw [he]
          show s.next_event_id < s.next_event_id + 1
          omega
        · have := h.idsBound e he
          show e.event_id < s.next_event_id + 1
          omega
      · intro j hj
        rcases List.mem_cons.mp hj with hj | hj
        · rw [hj]
          show s.next_event_id < s.next_event_id + 1
          omega
        · have := h.logBound j hj
          show j < s.next_event_id + 1
          omega
      · rw [List.chain'_cons']
        refine ⟨?_, h.logSorted⟩
        intro y hy
        exact h.logBound y (List.mem_of_mem_head? hy)
      · intro e1 he1 e2 he2 hpid h1 h2 hid
        rcases List.mem_cons.mp he1 with he1 | he1 <;>
          rcases List.mem_cons.mp he2 with he2 | he2
        · rw [he1, he2]
        · exfalso
          have hb := h.idsBound e2 he2
          rw [he1] at hid
          dsimp only at hid
          omega
        · rw [he2]
          dsimp only
          have hle := EventScheduler.get_nb_snd_ge_mem s p e1 he1 (by
            rw [he2] at hpid
            exact hpid)
          omega
        · rcases List.mem_cons.mp h1 with h1 | h1
          · exfalso
            have := h.idsBound e1 he1
            omega
          · rcases List.mem_cons.mp h2 with h2 | h2
            · exfalso
              have := h.idsBound e2 he2
              omega
            · exact h.ordered e1 he1 e2 he2 hpid h1 h2 hid
  | force d t p =>
    simp only [SchedOp.applyG, SchedOp.apply]
    unfold EventScheduler.force_schedule
    refine ⟨?_, ?_, h.logSorted, ?_⟩
    · intro e he
      rcases List.mem_cons.mp he with he | he
      · rw [he]
        show s.next_event_id < s.next_event_id + 1
        omega
      · have := h.idsBound e he
        show e.event_id < s.next_event_id + 1
        omega
    · intro j hj
      have := h.logBound j hj
      show j < s.next_event_id + 1
      omega
    · intro e1 he1 e2 he2 hpid h1 h2 hid
      rcases List.mem_cons.mp he1 with he1 | he1 <;>
        rcases List.mem_cons.mp he2 with he2 | he2
      · rw [he1, he2]
      · exfalso
        rw [he1] at h1
        have := h.logBound _ h1
        dsimp only at this
        omega
      · exfalso
        rw [he2] at h2
        have := h.logBound _ h2
        dsimp only at this
        omega
      · exact h.ordered e1 he1 e2 he2 hpid h1 h2 hid
  | tickOne =>
    exact schedInv_filter s log _ _ h
  | tickMany n =>
    exact schedInv_filter s log _ _ h
  | shift p delta =>
    show SchedInv (s.shift_client_events p delta, log).1 _
    unfold EventScheduler.shift_client_events
    have hproj : ∀ e : TimedEvent T,
        ((if e.player_id = p then
          { e with expiration_tick :=
              EventScheduler.shiftExp e.expiration_tick delta s.current_tick }
        else e) : TimedEvent T).event_id = e.event_id ∧
        ((if e.player_id = p then
          { e with expiration_tick :=
              EventScheduler.shiftExp e.expiration_tick delta s.current_tick }
        else e) : TimedEvent T).player_id = e.player_id := by
      intro e
      split <;> exact ⟨rfl, rfl⟩
    refine ⟨?_, h.logBound, h.logSorted, ?_⟩
    · intro e he
      rcases List.mem_map.mp he with ⟨a, ha, haeq⟩
      rw [← haeq, (hproj a).1]
      exact h.idsBound a ha
    · intro e1 he1 e2 he2 hpid h1 h2 hid
      rcases List.mem_map.mp he1 with ⟨a1, ha1, ha1eq⟩
      rcases List.mem_map.mp he2 with ⟨a2, ha2, ha2eq⟩
      rw [← ha1eq, (hproj a1).1] at h1 hid
      rw [← ha2eq, (hproj a2).1] at h2 hid
      rw [← ha1eq, (hproj a1).2] at hpid
      rw [← ha2eq, (hproj a2).2] at hpid
      have hexp := h.ordered a1 ha1 a2 ha2 hpid h1 h2 hid
      rw [← ha1eq, ← ha2eq]
      by_cases hp1 : a1.player_id = p
      · rw [if_pos hp1, if_pos (by rw [← hpid]; exact hp1)]
        exact shiftExp_mono _ _ _ _ hexp
      · rw [if_neg hp1, if_neg (by rw [← hpid]; exact hp1)]
        exact hexp
  | cancel eid =>
    exact schedInv_filter s log _ _ h

theorem schedInv_run {T : Type} (ops : List (SchedOp T)) :
    SchedInv (runOpsG ops).1 (runOpsG ops).2 := by
  suffices h : ∀ sl : EventScheduler T × List Nat, SchedInv sl.1 sl.2 →
      SchedInv (ops.foldl SchedOp.applyG sl).1 (ops.foldl SchedOp.applyG sl).2 by
    refine h (EventScheduler.new, []) ?_
    refine ⟨?_, ?_, ?_, ?_⟩
    · intro e he
      cases he
    · intro j hj
      cases hj
    · exact List.chain'_nil
    · intro e1 he1
      cases he1
  induction ops with
  | nil => exact fun sl h => h
  | cons op ops ih =>
    intro sl hsl
    exact ih (SchedOp.applyG sl op) (schedInv_step sl.1 sl.2 op hsl)

/-- C4: an accepted `schedule` call stores
`expiration_tick = last_tick + cost`, where `last_tick` is the maximum
expiration among the client's pending events (`current_tick` when it has
none); consequently, along every trace of scheduler operations, the ids of
accepted `schedule` events grow in schedule order (the ghost log, newest
first, is strictly decreasing) and the client's pending accepted events are
expiration-ordered by event id. -/
theorem schedule_discipline {T : Type} :
    (∀ (s : EventScheduler T) (d : T) (t p : Nat),
      (s.get_nb_events_by_player_id p).1 ≤ MAX_SIMULTANEOUS_EVENTS →
      (s.schedule d t p).1.events =
          ⟨d, s.next_event_id, p, (s.get_nb_events_by_player_id p).2 + t⟩ ::
            s.events ∧
      (s.pendingFor p = [] →
        (s.get_nb_events_by_player_id p).2 = s.current_tick) ∧
      (∀ e ∈ s.events, e.player_id = p →
        e.expiration_tick ≤ (s.get_nb_events_by_player_id p).2) ∧
      ((s.get_nb_events_by_player_id p).2 = s.current_tick ∨
        ∃ e ∈ s.events, e.player_id = p ∧
          e.expiration_tick = (s.get_nb_events_by_player_id p).2)) ∧
    (∀ ops : List (SchedOp T),
      (runOpsG ops).2.Chain' (fun a b => b < a) ∧
      pendingOrdered (runOpsG ops).1.events (runOpsG ops).2) := by
  constructor
  · intro s d t p hcap
    refine ⟨?_, ?_, ?_, ?_⟩
    · rw [EventScheduler.schedule_accept s d t p hcap]
    · intro hempty
      rcases EventScheduler.get_nb_snd_cases s p with hcase | ⟨e, he, hpid, hexp⟩
      · exact hcase
      · exfalso
        have : e ∈ s.pendingFor p := by
          unfold EventScheduler.pendingFor
          exact List.mem_filter.mpr ⟨he, by simp [hpid]⟩
        rw [hempty] at this
        cases this
    · exact fun e he hpid => EventScheduler.get_nb_snd_ge_mem s p e he hpid
    · exact EventScheduler.get_nb_snd_cases s p
  · intro ops
    exact ⟨(schedInv_run ops).logSorted, (schedInv_run ops).ordered⟩

/-- Witness for the C4 theorem at concrete inputs: an accepted call on the
fresh scheduler stores the consed event, and a two-call trace satisfies the
order invariants. -/
theorem schedule_discipline_witness :
    ((EventScheduler.new : EventScheduler Unit).schedule () 5 2).1.events =
        ⟨(), (EventScheduler.new : EventScheduler Unit).next_event_id, 2,
          ((EventScheduler.new : EventScheduler Unit).get_nb_events_by_player_id
            2).2 + 5⟩ ::
          (EventScheduler.new : EventScheduler Unit).events ∧
    ((runOpsG [SchedOp.schedule () 1 0, SchedOp.schedule () 2 0]).2.Chain'
        (fun a b => b < a) ∧
      pendingOrdered
        (runOpsG [SchedOp.schedule () 1 0, SchedOp.schedule () 2 0]).1.events
        (runOpsG [SchedOp.schedule () 1 0, SchedOp.schedule () 2 0]).2) :=
  ⟨(schedule_discipline.1 EventScheduler.new () 5 2 (by decide)).1,
   schedule_discipline.2 [SchedOp.schedule () 1 0, SchedOp.schedule () 2 0]⟩

end Zappy
